import Mathlib

/-!
Verification of the Sandchest node daemon and guest agent against its
specification.  The Rust sources are shallowly embedded: pure functions become
Lean functions over `Nat`/`Int`/`List`, stateful components become explicit
state-passing functions, and external effects (filesystem, hypervisor API,
process spawning) are abstracted into oracles recording success or failure of
each call, exactly mirroring the control flow of the source.
-/

namespace Sandchest

/-! ### Guest agent, snapshot.rs: heartbeat staleness

`is_heartbeat_stale` (src/crates/sandchest-agent/src/snapshot.rs, lines 16-45)
reads the heartbeat file, parses its trimmed contents as a decimal `u64`, and
compares with the current unix time.  The filesystem read and the `u64` parse
are embedded as a three-way outcome: the file is missing (or unreadable), its
contents do not parse, or they parse to a timestamp. -/

/-- Result of reading and parsing the heartbeat file, the two early-return
branches of the source collapsed into explicit constructors. -/
inductive HeartbeatFile where
  | missing : HeartbeatFile
  | unparseable : HeartbeatFile
  | ts (fileTs : Nat) : HeartbeatFile

/-- `STALE_THRESHOLD_SECS` from snapshot.rs. -/
def STALE_THRESHOLD_SECS : Nat := 5

/-- `is_heartbeat_stale`: missing file and unparseable contents return false;
otherwise the file is stale iff `now > file_ts && (now - file_ts) > 5`.
Subtraction is guarded by `now > file_ts` in the source, so `Nat` subtraction
agrees with `u64` subtraction. -/
def is_heartbeat_stale (f : HeartbeatFile) (now : Nat) : Bool :=
  match f with
  | .missing => false
  | .unparseable => false
  | .ts fileTs =>
      if now > fileTs ∧ (now - fileTs) > STALE_THRESHOLD_SECS then true else false

/-! ### Node, slot.rs: the SlotManager

The `used : Mutex<HashSet<u16>>` set is embedded as a duplicate-free `List Nat`
of allocated slots; `allocate` scans `0..256` for the first absent id and
inserts it, `release` removes an id. -/

/-- `MAX_SLOTS` from slot.rs. -/
def MAX_SLOTS : Nat := 256

/-- `SlotManager::allocate`: scan `0..MAX_SLOTS` in order, insert and return
the first id not in the used set; `none` models `Err(SlotError::Exhausted)`. -/
def slotAllocate (used : List Nat) : Option (Nat × List Nat) :=
  match (List.range MAX_SLOTS).find? (fun s => !(used.contains s)) with
  | some s => some (s, s :: used)
  | none => none

/-- `SlotManager::release`: remove the slot from the used set. -/
def slotRelease (used : List Nat) (slot : Nat) : List Nat :=
  used.filter (fun s => s ≠ slot)

/-- `SlotManager::active_count`: size of the used set (the embedding keeps the
list duplicate-free, so the length is the set size). -/
def slotActiveCount (used : List Nat) : Nat := used.length

/-! ### Node, id.rs: base62 encoding of 16-byte ids

`base62_encode` interprets 16 bytes as a big-endian `u128` and writes 22
base-62 digits most-significant first; `base62_decode` checks the length,
maps each character back to its digit value and folds the digits into a
`u128`, then re-serializes big-endian.  Bytes and characters are `Nat`s. -/

/-- The 62-character alphabet `0-9A-Za-z` of id.rs as byte values. -/
def ALPHABET : List Nat :=
  (List.range 10).map (fun i => 48 + i) ++ (List.range 26).map (fun i => 65 + i)
    ++ (List.range 26).map (fun i => 97 + i)

/-- `ENCODED_LENGTH` from id.rs. -/
def ENCODED_LENGTH : Nat := 22

/-- Big-endian digit expansion: `k` digits of `n` in the given base, most
significant first.  With `base = 62, k = 22` this is the digit loop of
`base62_encode`; with `base = 256, k = 16` it is `u128::to_be_bytes`. -/
def beDigits (base : Nat) : Nat → Nat → List Nat
  | 0, _ => []
  | k + 1, n => beDigits base k (n / base) ++ [n % base]

/-- `u128::from_be_bytes`: fold 16 bytes most-significant first. -/
def u128_from_be_bytes (bytes : List Nat) : Nat :=
  bytes.foldl (fun acc b => acc * 256 + b) 0

/-- `base62_encode`: the 22 base-62 digits of the big-endian `u128`, each
mapped through the alphabet (the digit is always `< 62`, so the `getD`
default is never used). -/
def base62_encode (bytes : List Nat) : List Nat :=
  (beDigits 62 ENCODED_LENGTH (u128_from_be_bytes bytes)).map (fun d => ALPHABET.getD d 48)

/-- The character-to-digit match of `base62_decode`: digits, upper case,
lower case; anything else is an `Invalid base62 character` error. -/
def b62_val (c : Nat) : Option Nat :=
  if 48 ≤ c ∧ c ≤ 57 then some (c - 48)
  else if 65 ≤ c ∧ c ≤ 90 then some (c - 65 + 10)
  else if 97 ≤ c ∧ c ≤ 122 then some (c - 97 + 36)
  else none

/-- The character loop of `base62_decode`: convert each character (returning
the error on the first invalid one) and fold into `num`; the accumulator is a
`u128`, hence the `% 2^128` at each step. -/
def decodeLoop (num : Nat) : List Nat → Option Nat
  | [] => some num
  | c :: rest =>
      match b62_val c with
      | none => none
      | some idx => decodeLoop ((num * 62 + idx) % 2 ^ 128) rest

/-- `base62_decode`: reject strings whose length is not 22, fold the
characters into a `u128` starting from 0, and serialize big-endian
(`u128::to_be_bytes`). -/
def base62_decode (s : List Nat) : Option (List Nat) :=
  if s.length ≠ ENCODED_LENGTH then none
  else (decodeLoop 0 s).map (beDigits 256 16)

/-! ### Guest agent, exec.rs: the exec event stream

`run_exec` spawns the child, then loops reading stdout and stderr in 8 KiB
chunks, emitting one event with an incremented `seq` per non-empty read, and
finally emits the exit event with the next `seq`.  The interleaving of pipe
reads chosen by `tokio::select!`, the read results, the timeout and the reaped
exit status are supplied by an oracle. -/

inductive ChunkSrc where
  | stdout : ChunkSrc
  | stderr : ChunkSrc

/-- `ExitEvent` of the agent protocol. -/
structure ExitEvent where
  exit_code : Int
  cpu_ms : Nat
  peak_memory_bytes : Nat
  duration_ms : Nat
  deriving Repr, DecidableEq

/-- Body of an `ExecEvent`: stdout bytes, stderr bytes, or the exit record. -/
inductive ExecBody where
  | stdoutData (data : List Nat) : ExecBody
  | stderrData (data : List Nat) : ExecBody
  | exit (e : ExitEvent) : ExecBody
  deriving Repr, DecidableEq

/-- `ExecEvent` of the agent protocol. -/
structure ExecEvent where
  seq : Nat
  body : ExecBody
  deriving Repr, DecidableEq

/-- `status.code()` and `status.signal()` of the reaped `ExitStatus`;
`code` is `none` when the process was killed by a signal. -/
structure ExitStatusModel where
  code : Option Int
  signal : Option Int

/-- Oracle for one `run_exec` call: the sequence of successful reads in the
order the select loop serves them (a read of `[]` models `Ok(0)`, which emits
nothing), whether the deadline fired, the result of `child.wait()` (`none`
models a reap error), and the `/proc` resource readings. -/
structure ExecOracle where
  chunks : List (ChunkSrc × List Nat)
  timedOut : Bool
  exitStatus : Option ExitStatusModel
  startTicks : Nat
  endTicks : Nat
  ticksPerSec : Nat
  peakMem : Nat
  durationMs : Nat

/-- The exit-code selection at the end of `run_exec` (exec.rs lines 159-179):
timeout forces `-1`; otherwise `status.code()`, else `128 + signal`,
else `-1`; a reap error is `-1`. -/
def execExitCode (timedOut : Bool) (st : Option ExitStatusModel) : Int :=
  if timedOut then -1
  else
    match st with
    | some s =>
        match s.code with
        | some c => c
        | none =>
            match s.signal with
            | some n => 128 + n
            | none => -1
    | none => -1

/-- The read loop of `run_exec`: each non-empty read increments `seq` and
emits a stdout or stderr event; returns the final `seq` and the events. -/
def execChunkEvents (seq : Nat) : List (ChunkSrc × List Nat) → Nat × List ExecEvent
  | [] => (seq, [])
  | c :: rest =>
      if c.2.isEmpty then execChunkEvents seq rest
      else
        let ev : ExecEvent :=
          ⟨seq + 1, match c.1 with
            | .stdout => .stdoutData c.2
            | .stderr => .stderrData c.2⟩
        let (s, evs) := execChunkEvents (seq + 1) rest
        (s, ev :: evs)

/-- `cpu_ms` computation of `run_exec` (end minus start ticks, scaled by the
clock tick rate, clamped at 0 when the end reading is not larger). -/
def execCpuMs (o : ExecOracle) : Nat :=
  if o.endTicks > o.startTicks then (o.endTicks - o.startTicks) * 1000 / o.ticksPerSec else 0

/-- The full `ExecEvent` stream of one successful `run_exec` call: the chunk
events followed by the exit event at the next `seq`. -/
def runExecEvents (o : ExecOracle) : List ExecEvent :=
  let (seqN, evs) := execChunkEvents 0 o.chunks
  evs ++ [⟨seqN + 1,
    .exit ⟨execExitCode o.timedOut o.exitStatus, execCpuMs o, o.peakMem, o.durationMs⟩⟩]

/-! ### Guest agent, files.rs: the GetFile stream

`run_get_file` reads the file in `GET_FILE_CHUNK_SIZE` chunks; a full read is
sent with `done = false`, a short read with `done = true` (ending the loop),
and a zero read sends the final empty chunk with `done = true`.  File reads
are embedded as returning `min remaining 65536` bytes, the behaviour the
short-read-is-EOF logic of the source assumes. -/

/-- `GET_FILE_CHUNK_SIZE` from files.rs. -/
def GET_FILE_CHUNK_SIZE : Nat := 64 * 1024

/-- `FileChunk` of the agent protocol. -/
structure FileChunk where
  path : String
  data : List Nat
  offset : Nat
  done : Bool
  deriving Repr, DecidableEq

/-- The read loop of `run_get_file`, recursing on the unread remainder. -/
def getFileLoop (path : String) (remaining : List Nat) (offset : Nat) : List FileChunk :=
  let n := min remaining.length GET_FILE_CHUNK_SIZE
  if _h : n = 0 then
    [⟨path, [], offset, true⟩]
  else
    let done := decide (n < GET_FILE_CHUNK_SIZE)
    let chunk : FileChunk := ⟨path, remaining.take n, offset, done⟩
    if done then [chunk]
    else chunk :: getFileLoop path (remaining.drop n) (offset + n)
  termination_by remaining.length
  decreasing_by
    simp only [List.length_drop]
    omega

/-- `run_get_file` on an existing regular file with the given contents. -/
def run_get_file (path : String) (content : List Nat) : List FileChunk :=
  getFileLoop path content 0

/-! ### Guest agent, session.rs: sentinel-framed session exec

`run_session_exec` writes the sentinel-wrapped command to the PTY master and
loops: check the deadline, read a chunk, append to `pending_buf`, look for the
sentinel, and otherwise stream all but the trailing 256 bytes.
`extract_sentinel` and `strip_command_echo` convert the byte buffer with
`String::from_utf8_lossy` and then use *string* byte positions to slice the
*original* byte buffer, so the lossy conversion is embedded exactly:
each maximal ill-formed subsequence becomes the three-byte UTF-8 encoding of
U+FFFD. -/

/-- The UTF-8 encoding of the replacement character U+FFFD. -/
def rfd : List Nat := [0xEF, 0xBF, 0xBD]

/-- A UTF-8 continuation byte. -/
def isCont (b : Nat) : Bool := 0x80 ≤ b && b ≤ 0xBF

/-- Valid second byte of a three-byte sequence with the given lead byte
(0xE0 and 0xED restrict the usual 0x80-0xBF range). -/
def isCont3 (lead c : Nat) : Bool :=
  if lead = 0xE0 then 0xA0 ≤ c && c ≤ 0xBF
  else if lead = 0xED then 0x80 ≤ c && c ≤ 0x9F
  else isCont c

/-- Valid second byte of a four-byte sequence with the given lead byte
(0xF0 and 0xF4 restrict the usual range). -/
def isCont4 (lead c : Nat) : Bool :=
  if lead = 0xF0 then 0x90 ≤ c && c ≤ 0xBF
  else if lead = 0xF4 then 0x80 ≤ c && c ≤ 0x8F
  else isCont c

/-- `String::from_utf8_lossy` as a byte transformation: well-formed sequences
pass through, each maximal ill-formed subsequence (per the substitution of
maximal subparts, as implemented by `core::str` validation) becomes `rfd`. -/
def utf8Lossy : List Nat → List Nat
  | [] => []
  | b :: rest =>
    if b ≤ 0x7F then b :: utf8Lossy rest
    else if 0xC2 ≤ b && b ≤ 0xDF then
      match rest with
      | [] => rfd
      | c :: rest2 =>
          if isCont c then b :: c :: utf8Lossy rest2
          else rfd ++ utf8Lossy (c :: rest2)
    else if 0xE0 ≤ b && b ≤ 0xEF then
      match rest with
      | [] => rfd
      | c :: rest2 =>
          if isCont3 b c then
            match rest2 with
            | [] => rfd
            | d :: rest3 =>
                if isCont d then b :: c :: d :: utf8Lossy rest3
                else rfd ++ utf8Lossy (d :: rest3)
          else rfd ++ utf8Lossy (c :: rest2)
    else if 0xF0 ≤ b && b ≤ 0xF4 then
      match rest with
      | [] => rfd
      | c :: rest2 =>
          if isCont4 b c then
            match rest2 with
            | [] => rfd
            | d :: rest3 =>
                if isCont d then
                  match rest3 with
                  | [] => rfd
                  | e :: rest4 =>
                      if isCont e then b :: c :: d :: e :: utf8Lossy rest4
                      else rfd ++ utf8Lossy (e :: rest4)
                else rfd ++ utf8Lossy (d :: rest3)
          else rfd ++ utf8Lossy (c :: rest2)
    else rfd ++ utf8Lossy rest

/-- `str::find` for a byte pattern: byte index of the first occurrence. -/
def strFind (hay needle : List Nat) : Option Nat :=
  if needle.isPrefixOf hay then some 0
  else
    match hay with
    | [] => none
    | _ :: t => (strFind t needle).map (· + 1)

/-- `str::parse::<i32>`: optional sign, one or more decimal digits, value
within the `i32` range. -/
def parseI32core (sign : Int) (digits : List Nat) : Option Int :=
  if digits.isEmpty || !digits.all (fun c => 48 ≤ c && c ≤ 57) then none
  else
    let v : Int := ((digits.foldl (fun a c => a * 10 + (c - 48)) 0 : Nat) : Int)
    let iv := sign * v
    if -(2 ^ 31) ≤ iv ∧ iv ≤ 2 ^ 31 - 1 then some iv else none

/-- The sign handling of `str::parse::<i32>`: an optional leading plus or
minus (byte 43 or 45), then the digit loop. -/
def parseI32 (s : List Nat) : Option Int :=
  match s with
  | c :: rest =>
      if c = 43 then parseI32core 1 rest
      else if c = 45 then parseI32core (-1) rest
      else parseI32core 1 (c :: rest)
  | [] => parseI32core 1 []

/-- `SENTINEL_SUFFIX` = `"__"`. -/
def SENTINEL_SUFFIX : List Nat := [95, 95]

/-- The bytes of `SENTINEL_PREFIX` = `"__SC_SENTINEL_"`. -/
def sentinelStart : List Nat := [95, 95, 83, 67, 95, 83, 69, 78, 84, 73, 78, 69, 76, 95]

/-- The per-exec marker `"__SC_SENTINEL_<nanos>_"` with the given digits. -/
def sentinelMarker (nanosDigits : List Nat) : List Nat :=
  sentinelStart ++ nanosDigits ++ [95]

/-- `extract_sentinel` (session.rs lines 468-479): find the marker in the
lossy string, find the closing `"__"` after it, parse the digits between as
the exit code (`unwrap_or(-1)`), and return the bytes of the buffer before
the *string* position of the marker. -/
def extract_sentinel (buf marker : List Nat) : Option (List Nat × Int) :=
  let s := utf8Lossy buf
  match strFind s marker with
  | none => none
  | some markerPos =>
      let afterMarker := s.drop (markerPos + marker.length)
      match strFind afterMarker SENTINEL_SUFFIX with
      | none => none
      | some suffixPos =>
          some (buf.take markerPos, (parseI32 (afterMarker.take suffixPos)).getD (-1))

/-- The bytes of the literal `"__sc_exit=$?;"` searched by
`strip_command_echo`. -/
def scExitTag : List Nat := [95, 95, 115, 99, 95, 101, 120, 105, 116, 61, 36, 63, 59]

/-- ASCII whitespace, the fragment of `char::is_whitespace` relevant to shell
commands and PTY output (the Unicode-only whitespace code points are not
representable in the ASCII streams the theorems below quantify over). -/
def isWs (b : Nat) : Bool := b = 32 || b = 9 || b = 10 || b = 13 || b = 11 || b = 12

/-- `str::trim_start` over bytes. -/
def trimStartBytes (s : List Nat) : List Nat := s.dropWhile isWs

/-- `str::trim` over bytes. -/
def trimBytes (s : List Nat) : List Nat := (s.dropWhile isWs).reverse.dropWhile isWs |>.reverse

/-- `strip_command_echo` (session.rs lines 483-504): skip past the echoed
wrapped command by locating `"__sc_exit=$?;"` and the newline after it, or
fall back to stripping the first line when the output starts with the
command; positions found in the lossy string index the raw bytes. -/
def strip_command_echo (output cmd : List Nat) : List Nat :=
  let s := utf8Lossy output
  match strFind s scExitTag with
  | some pos =>
      (match strFind (s.drop pos) [10] with
       | some nl => output.drop (pos + nl + 1)
       | none => stripEchoFallback output cmd s)
  | none => stripEchoFallback output cmd s
where
  /-- The fallback branch: if the output starts with the trimmed command,
  drop the first line. -/
  stripEchoFallback (output cmd s : List Nat) : List Nat :=
    if (trimBytes cmd).isPrefixOf (trimStartBytes s) then
      match strFind s [10] with
      | some nl => output.drop (nl + 1)
      | none => output
    else output

/-- One iteration outcome of the `run_session_exec` read loop, as scheduled
by the PTY and the clock: the deadline check at the top of the loop fired,
a read returned bytes (`[]` models `WouldBlock`), the read failed with `EIO`
(child exited), or the read failed with another error.  `elapsedMs` is
`start.elapsed().as_millis()` at the time an exit event would be built. -/
inductive ReadStep where
  | timeoutFired (elapsedMs : Nat) : ReadStep
  | dataRead (bytes : List Nat) (elapsedMs : Nat) : ReadStep
  | eioErr (elapsedMs : Nat) : ReadStep
  | otherErr : ReadStep

/-- The read loop of `run_session_exec` (session.rs lines 327-465), emitting
`ExecEvent`s.  A fired deadline or an `EIO` read emits a synthetic exit with
code `-1` and zero resource usage; a found sentinel emits the remaining
cleaned output (when non-empty) and the exit; otherwise everything but the
trailing 256 bytes is streamed (after echo stripping).  Other errors send an
error status, hence no `ExecEvent`.  An exhausted schedule means the exec is
still blocked in the loop: no further events. -/
def sessionExecLoop (marker cmd : List Nat) :
    Nat → List Nat → List ReadStep → List ExecEvent
  | _, _, [] => []
  | seq, pending, step :: rest =>
    match step with
    | .timeoutFired el => [⟨seq + 1, .exit ⟨-1, 0, 0, el⟩⟩]
    | .eioErr el => [⟨seq + 1, .exit ⟨-1, 0, 0, el⟩⟩]
    | .otherErr => []
    | .dataRead bytes el =>
        if bytes.isEmpty then sessionExecLoop marker cmd seq pending rest
        else
          let pending2 := pending ++ bytes
          match extract_sentinel pending2 marker with
          | some (output, exitCode) =>
              let exitOf : Nat → ExecEvent := fun q => ⟨q, .exit ⟨exitCode, 0, 0, el⟩⟩
              if output.isEmpty then [exitOf (seq + 1)]
              else
                let clean := strip_command_echo output cmd
                if clean.isEmpty then [exitOf (seq + 1)]
                else [⟨seq + 1, .stdoutData clean⟩, exitOf (seq + 2)]
          | none =>
              let safeLen := if pending2.length > 256 then pending2.length - 256 else 0
              if safeLen > 0 then
                let toSend := pending2.take safeLen
                let pending3 := pending2.drop safeLen
                let clean := strip_command_echo toSend cmd
                if clean.isEmpty then sessionExecLoop marker cmd seq pending3 rest
                else ⟨seq + 1, .stdoutData clean⟩ ::
                  sessionExecLoop marker cmd (seq + 1) pending3 rest
              else sessionExecLoop marker cmd seq pending2 rest

/-- `run_session_exec` after the command write succeeded: the read loop from
`seq = 0` with an empty `pending_buf`. -/
def run_session_exec (marker cmd : List Nat) (sched : List ReadStep) : List ExecEvent :=
  sessionExecLoop marker cmd 0 [] sched

/-! ### Node, sandbox.rs: the SandboxManager state machine

The manager holds the sandbox map, the VM-handle map and the `SlotManager`;
`create_sandbox`, `create_sandbox_from_snapshot`, `fork_sandbox` and
`destroy_sandbox` are embedded as state transformers.  External calls
(network plumbing, disk cloning, file copies, the hypervisor process and its
API, the agent health poll) succeed or fail as dictated by a per-call oracle,
and their host-side effects are tracked in ledgers: `nets` holds the ids with
TAP/NAT rules installed, `disks` the ids whose sandbox directory holds a
cloned rootfs, `procs` the ids with a live hypervisor process.
`vm.destroy()` kills the process and removes the sandbox directory
(firecracker.rs lines 224-270), so it clears both `procs` and `disks`.
Emitted `SandboxEvent`s are appended to `events`. -/

inductive SandboxStatus where
  | provisioning | running | stopping | stopped | failed
  deriving Repr, DecidableEq

inductive Profile where
  | small | medium | large
  deriving Repr, DecidableEq

/-- `SandboxEventType` of the node-to-control protocol. -/
inductive EvType where
  | created | ready | stopped | failed | forked
  deriving Repr, DecidableEq

/-- `SandboxInfo` (the `created_at : Instant` field, wall-clock only, is
omitted). -/
structure SandboxInfo where
  sandbox_id : String
  status : SandboxStatus
  profile : Profile
  env : List (String × String)
  boot_duration_ms : Option Nat
  network_slot : Option Nat
  deriving Repr, DecidableEq

/-- `SandboxError`, with the failure message dropped. -/
inductive SandboxError where
  | alreadyExists | notFound | createFailed | forkFailed
  deriving Repr, DecidableEq

/-- The manager state plus the host-side effect ledgers. -/
structure NodeState where
  sandboxes : List (String × SandboxInfo)
  vms : List String
  slots : List Nat
  events : List (String × EvType)
  nets : List String
  disks : List String
  procs : List String
  deriving Repr, DecidableEq

def NodeState.init : NodeState := ⟨[], [], [], [], [], [], []⟩

/-- `HashMap` lookup on the association list. -/
def alookup (m : List (String × SandboxInfo)) (k : String) : Option SandboxInfo :=
  (m.find? (fun p => p.1 == k)).map (·.2)

/-- In-place update of one entry (`get_mut`), a no-op for a missing key. -/
def aupdate (m : List (String × SandboxInfo)) (k : String)
    (f : SandboxInfo → SandboxInfo) : List (String × SandboxInfo) :=
  m.map (fun p => if p.1 == k then (p.1, f p.2) else p)

/-- `HashMap::remove` on the association list. -/
def aremove (m : List (String × SandboxInfo)) (k : String) : List (String × SandboxInfo) :=
  m.filter (fun p => p.1 != k)

/-- `set_status`: update the status if the sandbox is present. -/
def setStatus (st : NodeState) (id : String) (s : SandboxStatus) : NodeState :=
  { st with sandboxes := aupdate st.sandboxes id (fun i => { i with status := s }) }

/-- `report_event`: append the sandbox event (the send never blocks). -/
def reportEvent (st : NodeState) (id : String) (t : EvType) : NodeState :=
  { st with events := st.events ++ [(id, t)] }

/-- Successful `network::setup_network`: TAP/NAT rules now exist for `id`. -/
def netUp (st : NodeState) (id : String) : NodeState :=
  { st with nets := id :: st.nets }

/-- `network::teardown_network`: best-effort removal, always proceeds. -/
def netDown (st : NodeState) (id : String) : NodeState :=
  { st with nets := st.nets.filter (fun x => x != id) }

/-- Successful `disk::clone_disk`: the sandbox directory holds a rootfs. -/
def diskUp (st : NodeState) (id : String) : NodeState :=
  { st with disks := id :: st.disks }

/-- `disk::cleanup_disk`: best-effort removal of the cloned rootfs. -/
def diskDown (st : NodeState) (id : String) : NodeState :=
  { st with disks := st.disks.filter (fun x => x != id) }

/-- Successful hypervisor spawn: a live process for `id`. -/
def procUp (st : NodeState) (id : String) : NodeState :=
  { st with procs := id :: st.procs }

/-- `vm.destroy()`: kill the process and remove the sandbox directory (which
holds the cloned rootfs). -/
def vmDestroy (st : NodeState) (id : String) : NodeState :=
  { st with procs := st.procs.filter (fun x => x != id),
            disks := st.disks.filter (fun x => x != id) }

/-- `slot_manager.release`. -/
def stRelease (st : NodeState) (slot : Nat) : NodeState :=
  { st with slots := slotRelease st.slots slot }

/-- `insert_provisioning`: reject a duplicate id, otherwise insert the
sandbox as Provisioning with the slot recorded. -/
def insertProvisioning (st : NodeState) (id : String) (profile : Profile)
    (env : List (String × String)) (slot : Option Nat) :
    Option NodeState :=
  if (alookup st.sandboxes id).isSome then none
  else some { st with sandboxes :=
    (id, ⟨id, .provisioning, profile, env, none, slot⟩) :: st.sandboxes }

/-- `finalize_running`: mark Running and stamp the boot duration. -/
def finalizeRunning (st : NodeState) (id : String) (bootMs : Nat) : NodeState :=
  let upd := fun (i : SandboxInfo) => { i with status := SandboxStatus.running, boot_duration_ms := some bootMs }
  { st with sandboxes := aupdate st.sandboxes id upd }

/-- Oracle for one `create_sandbox` call. -/
structure ColdOracle where
  netOk : Bool
  diskOk : Bool
  fcOk : Bool
  healthOk : Bool
  bootMs : Nat

/-- `create_sandbox` (sandbox.rs lines 92-189). -/
def create_sandbox (st : NodeState) (id : String) (profile : Profile)
    (env : List (String × String)) (o : ColdOracle) : NodeState × Except SandboxError Unit :=
  match slotAllocate st.slots with
  | none => (st, .error .createFailed)
  | some (slot, slots2) =>
    let st := { st with slots := slots2 }
    match insertProvisioning st id profile env (some slot) with
    | none => (st, .error .alreadyExists)
    | some st =>
      let st := reportEvent st id .created
      if !o.netOk then
        let st := reportEvent (setStatus st id .failed) id .failed
        (stRelease st slot, .error .createFailed)
      else
        let st := netUp st id
        if !o.diskOk then
          let st := reportEvent (setStatus st id .failed) id .failed
          (stRelease (netDown st id) slot, .error .createFailed)
        else
          let st := diskUp st id
          if !o.fcOk then
            let st := reportEvent (setStatus st id .failed) id .failed
            (diskDown (stRelease (netDown st id) slot) id, .error .createFailed)
          else
            let st := procUp st id
            if !o.healthOk then
              let st := reportEvent (setStatus st id .failed) id .failed
              (stRelease (netDown (vmDestroy st id) id) slot, .error .createFailed)
            else
              let st := { st with vms := id :: st.vms }
              let st := finalizeRunning st id o.bootMs
              (reportEvent st id .ready, .ok ())

/-- Oracle for one `create_sandbox_from_snapshot` call. -/
structure WarmOracle where
  snapExists : Bool
  netOk : Bool
  diskOk : Bool
  copyMemOk : Bool
  copySnapOk : Bool
  spawnOk : Bool
  readyOk : Bool
  restoreOk : Bool
  resumeOk : Bool
  healthOk : Bool
  bootMs : Nat

/-- `create_sandbox_from_snapshot` (sandbox.rs lines 199-385).  The firecracker
spawn failure (lines 293-304) propagates through `?` inside `map_err`: no
status update, no event, no network teardown, no disk cleanup, no slot
release. -/
def create_sandbox_from_snapshot (st : NodeState) (id : String)
    (env : List (String × String)) (o : WarmOracle) : NodeState × Except SandboxError Unit :=
  if !o.snapExists then (st, .error .createFailed)
  else
    match slotAllocate st.slots with
    | none => (st, .error .createFailed)
    | some (slot, slots2) =>
      let st := { st with slots := slots2 }
      match insertProvisioning st id .small env (some slot) with
      | none => (st, .error .alreadyExists)
      | some st =>
        let st := reportEvent st id .created
        if !o.netOk then
          let st := reportEvent (setStatus st id .failed) id .failed
          (stRelease st slot, .error .createFailed)
        else
          let st := netUp st id
          if !o.diskOk then
            let st := reportEvent (setStatus st id .failed) id .failed
            (stRelease (netDown st id) slot, .error .createFailed)
          else
            let st := diskUp st id
            if !o.copyMemOk then
              let st := reportEvent (setStatus st id .failed) id .failed
              (stRelease (netDown st id) slot, .error .createFailed)
            else if !o.copySnapOk then
              let st := reportEvent (setStatus st id .failed) id .failed
              (stRelease (netDown st id) slot, .error .createFailed)
            else if !o.spawnOk then
              (st, .error .createFailed)
            else
              let st := procUp st id
              let failVm := fun (st : NodeState) =>
                let st := reportEvent (setStatus st id .failed) id .failed
                (stRelease (netDown (vmDestroy st id) id) slot, .error (α := Unit) .createFailed)
              if !o.readyOk then failVm st
              else if !o.restoreOk then failVm st
              else if !o.resumeOk then failVm st
              else if !o.healthOk then failVm st
              else
                let st := { st with vms := id :: st.vms }
                let st := finalizeRunning st id o.bootMs
                (reportEvent st id .ready, .ok ())

/-- Oracle for one `fork_sandbox` call. -/
structure ForkOracle where
  netOk : Bool
  mkdirOk : Bool
  pauseOk : Bool
  snapshotOk : Bool
  diskOk : Bool
  spawnOk : Bool
  readyOk : Bool
  restoreOk : Bool
  forkResumeOk : Bool
  healthOk : Bool
  bootMs : Nat

/-- `cleanup_fork_failure` (sandbox.rs lines 788-810): mark Failed, report the
event, destroy the child VM (when one was spawned) or clean its disk, tear
down its network, release its slot. -/
def cleanupForkFailure (st : NodeState) (id : String) (slot : Nat) (vmSpawned : Bool) :
    NodeState :=
  let st := reportEvent (setStatus st id .failed) id .failed
  let st := if vmSpawned then vmDestroy st id else diskDown st id
  stRelease (netDown st id) slot

/-- `fork_sandbox` (sandbox.rs lines 396-681). -/
def fork_sandbox (st : NodeState) (src dst : String) (o : ForkOracle) :
    NodeState × Except SandboxError Unit :=
  match alookup st.sandboxes src with
  | none => (st, .error .notFound)
  | some info =>
    if info.status ≠ .running then (st, .error .forkFailed)
    else if !st.vms.contains src then (st, .error .forkFailed)
    else
      match slotAllocate st.slots with
      | none => (st, .error .forkFailed)
      | some (slot, slots2) =>
        let st := { st with slots := slots2 }
        match insertProvisioning st dst info.profile info.env (some slot) with
        | none => (stRelease st slot, .error .forkFailed)
        | some st =>
          let st := reportEvent st dst .created
          if !o.netOk then (cleanupForkFailure st dst slot false, .error .forkFailed)
          else
            let st := netUp st dst
            if !o.mkdirOk then (cleanupForkFailure st dst slot false, .error .forkFailed)
            else if !o.pauseOk then (cleanupForkFailure st dst slot false, .error .forkFailed)
            else if !o.snapshotOk then (cleanupForkFailure st dst slot false, .error .forkFailed)
            else if !o.diskOk then (cleanupForkFailure st dst slot false, .error .forkFailed)
            else
              let st := diskUp st dst
              if !o.spawnOk then (cleanupForkFailure st dst slot false, .error .forkFailed)
              else
                let st := procUp st dst
                if !o.readyOk then (cleanupForkFailure st dst slot true, .error .forkFailed)
                else if !o.restoreOk then (cleanupForkFailure st dst slot true, .error .forkFailed)
                else if !o.forkResumeOk then (cleanupForkFailure st dst slot true, .error .forkFailed)
                else if !o.healthOk then (cleanupForkFailure st dst slot true, .error .forkFailed)
                else
                  let st := { st with vms := dst :: st.vms }
                  let st := finalizeRunning st dst o.bootMs
                  (reportEvent st dst .forked, .ok ())

/-- `destroy_sandbox` (sandbox.rs lines 684-720): mark Stopping, destroy the
VM handle if any, tear down networking for the recorded slot, release it,
mark Stopped, report the Stopped event (unconditionally), remove the entry. -/
def destroy_sandbox (st : NodeState) (id : String) : NodeState × Except SandboxError Unit :=
  let st := setStatus st id .stopping
  let networkSlot := (alookup st.sandboxes id).bind (·.network_slot)
  let st :=
    if st.vms.contains id then vmDestroy { st with vms := st.vms.filter (fun x => x != id) } id
    else st
  let st :=
    match networkSlot with
    | some slot => stRelease (netDown st id) slot
    | none => st
  let st := setStatus st id .stopped
  let st := reportEvent st id .stopped
  ({ st with sandboxes := aremove st.sandboxes id }, .ok ())

/-- One manager operation with its oracle. -/
inductive NodeOp where
  | createCold (id : String) (profile : Profile) (env : List (String × String))
      (o : ColdOracle) : NodeOp
  | createWarm (id : String) (env : List (String × String)) (o : WarmOracle) : NodeOp
  | fork (src dst : String) (o : ForkOracle) : NodeOp
  | destroy (id : String) : NodeOp

/-- Apply one operation (the RPC result is dropped). -/
def stepOp (st : NodeState) : NodeOp → NodeState
  | .createCold id profile env o => (create_sandbox st id profile env o).1
  | .createWarm id env o => (create_sandbox_from_snapshot st id env o).1
  | .fork src dst o => (fork_sandbox st src dst o).1
  | .destroy id => (destroy_sandbox st id).1

/-- Run a sequence of manager operations from a state. -/
def runOps (st : NodeState) : List NodeOp → NodeState
  | [] => st
  | op :: rest => runOps (stepOp st op) rest

/-- The id a `NodeOp` creates (for fork, the child). -/
def createTarget : NodeOp → Option String
  | .createCold id _ _ _ => some id
  | .createWarm id _ _ => some id
  | .fork _ dst _ => some dst
  | .destroy _ => none

/-- The per-id event trace without the Stopped events. -/
def nonStopFor (id : String) (evs : List (String × EvType)) : List EvType :=
  (evs.filter (fun e => e.1 == id && e.2 != EvType.stopped)).map (·.2)

/-- The per-id event trace. -/
def eventsFor (id : String) (evs : List (String × EvType)) : List EvType :=
  (evs.filter (fun e => e.1 == id)).map (·.2)

/-! ### Observation helpers -/

/-- The `seq` values of an event list. -/
def seqsOf (evs : List ExecEvent) : List Nat := evs.map (·.seq)

/-- Whether an event is the exit event. -/
def isExitEv (e : ExecEvent) : Bool :=
  match e.body with
  | .exit _ => true
  | _ => false

/-- The exit code carried by the final event of a stream, when that event is
an exit event. -/
def lastExitCode (evs : List ExecEvent) : Option Int :=
  evs.getLast?.bind fun e =>
    match e.body with
    | .exit x => some x.exit_code
    | _ => none

/-- The numeric value of a decimal digit string, as accumulated by the
fold inside `parseI32`. -/
def natDigitsVal (ds : List Nat) : Nat := ds.foldl (fun a c => a * 10 + (c - 48)) 0

/-- The bytes a schedule step delivers (non-data steps deliver none). -/
def stepBytes : ReadStep → List Nat
  | .dataRead bytes _ => bytes
  | _ => []
/-- The admissible traces of non-Stopped event types of one sandbox id: the
prefixes of Created followed by one of Ready, Failed, Forked. -/
def GoodTrace (l : List EvType) : Prop :=
  l = [] ∨ l = [.created] ∨ l = [.created, .ready] ∨
    l = [.created, .failed] ∨ l = [.created, .forked]

/-! ## Theorems -/

/-! ### C6: heartbeat staleness -/

/-- C6: the staleness predicate returns true exactly when the file exists,
parses to `fileTs`, `now > fileTs` and `now - fileTs > 5`; a timestamp
exactly 5 seconds old is fresh, future timestamps are never stale, and a
missing file or unparseable content is never stale. -/
theorem heartbeat_staleness (now fileTs k : Nat) :
    (is_heartbeat_stale (.ts fileTs) now = true ↔ now > fileTs ∧ now - fileTs > 5) ∧
    is_heartbeat_stale (.ts (now - 5)) now = false ∧
    is_heartbeat_stale (.ts (now + k)) now = false ∧
    is_heartbeat_stale .missing now = false ∧
    is_heartbeat_stale .unparseable now = false := by
  have hts : ∀ t, is_heartbeat_stale (.ts t) now
      = if now > t ∧ now - t > 5 then true else false := fun t => rfl
  refine ⟨?_, ?_, ?_, rfl, rfl⟩
  · rw [hts]
    split_ifs with h
    · simp [h]
    · simp [h]
  · rw [hts, if_neg]
    omega
  · rw [hts, if_neg]
    omega

/-- C6 witness: a 60-second-old heartbeat at `now = 100` is stale, and the
boundary, future, missing and unparseable cases evaluate as the theorem
states. -/
theorem heartbeat_staleness_witness :
    is_heartbeat_stale (.ts 40) 100 = true ∧
    is_heartbeat_stale (.ts 95) 100 = false ∧
    is_heartbeat_stale (.ts 107) 100 = false ∧
    is_heartbeat_stale .missing 100 = false ∧
    is_heartbeat_stale .unparseable 100 = false := by
  have h := heartbeat_staleness 100 40 7
  exact ⟨h.1.mpr (by omega), h.2.1, h.2.2.1, h.2.2.2.1, h.2.2.2.2⟩

/-! ### C8: the SlotManager -/

/-- Characterization of `find?` over `List.range`: a hit is the least value
below `n` satisfying the predicate, a miss means nothing below `n` does. -/
theorem find?_range_spec (p : Nat → Bool) (n : Nat) :
    (∀ s, (List.range n).find? p = some s →
      s < n ∧ p s = true ∧ ∀ t, t < s → p t = false) ∧
    ((List.range n).find? p = none → ∀ t, t < n → p t = false) := by
  induction n with
  | zero => simp
  | succ m ih =>
    rw [List.range_succ]
    constructor
    · intro s hfind
      rw [List.find?_append] at hfind
      rcases hf : (List.range m).find? p with _ | v
      · rw [hf] at hfind
        simp only [Option.or] at hfind
        rcases hs : p m with _ | _
        · simp [List.find?, hs] at hfind
        · simp only [List.find?, hs] at hfind
          obtain rfl : m = s := by injection hfind
          exact ⟨Nat.lt_succ_self m, hs, fun t ht => ih.2 hf t ht⟩
      · rw [hf] at hfind
        simp only [Option.or] at hfind
        obtain rfl : v = s := by injection hfind
        obtain ⟨h1, h2, h3⟩ := ih.1 v hf
        exact ⟨Nat.lt_succ_of_lt h1, h2, h3⟩
    · intro hfind t ht
      rw [List.find?_append] at hfind
      rcases hf : (List.range m).find? p with _ | v
      · rw [hf] at hfind
        simp only [Option.or] at hfind
        rcases Nat.lt_succ_iff_lt_or_eq.mp ht with h | h
        · exact ih.2 hf t h
        · subst h
          rcases hs : p t with _ | _
          · rfl
          · simp [List.find?, hs] at hfind
      · rw [hf] at hfind
        simp at hfind

/-- Bridge between the boolean `contains` test of `allocate` and list
membership. -/
theorem notContains_true_iff (l : List Nat) (a : Nat) :
    ((!(l.contains a)) = true) ↔ a ∉ l := by
  simp

/-- The other direction of the bridge. -/
theorem notContains_false_iff (l : List Nat) (a : Nat) :
    ((!(l.contains a)) = false) ↔ a ∈ l := by
  simp

/-- Membership after a release. -/
theorem mem_slotRelease (used : List Nat) (slot a : Nat) :
    a ∈ slotRelease used slot ↔ a ∈ used ∧ a ≠ slot := by
  simp [slotRelease, List.mem_filter]

/-- C8: `allocate` returns the smallest integer in `[0,256)` not allocated
and marks it allocated; it is exhausted exactly when all 256 slots are
allocated; `release` is idempotent and a no-op on a free slot; after
releasing a slot of a full manager, `allocate` returns that slot again. -/
theorem slot_manager_spec (used : List Nat) (slot : Nat) :
    (∀ s used2, slotAllocate used = some (s, used2) →
      s < 256 ∧ s ∉ used ∧ (∀ t, t < s → t ∈ used) ∧ used2 = s :: used) ∧
    (slotAllocate used = none ↔ ∀ t, t < 256 → t ∈ used) ∧
    slotRelease (slotRelease used slot) slot = slotRelease used slot ∧
    (slot ∉ used → slotRelease used slot = used) ∧
    (slot < 256 → (∀ t, t < 256 → t ∈ used) →
      (slotAllocate (slotRelease used slot)).map (·.1) = some slot) := by
  have hmain := find?_range_spec (fun s => !(used.contains s)) 256
  refine ⟨?_, ⟨?_, ?_⟩, ?_, ?_, ?_⟩
  · intro s used2 h
    unfold slotAllocate at h
    rcases hf : (List.range MAX_SLOTS).find? (fun s => !(used.contains s)) with _ | v
    · rw [hf] at h
      exact absurd h (by simp)
    · rw [hf] at h
      obtain ⟨rfl, rfl⟩ : v = s ∧ (v :: used) = used2 := by
        constructor <;> injection h with h2 <;> injection h2
      obtain ⟨h1, h2, h3⟩ := hmain.1 v hf
      refine ⟨h1, (notContains_true_iff used v).mp h2, ?_, rfl⟩
      intro t ht
      exact (notContains_false_iff used t).mp (h3 t ht)
  · intro h t ht
    unfold slotAllocate at h
    rcases hf : (List.range MAX_SLOTS).find? (fun s => !(used.contains s)) with _ | v
    · exact (notContains_false_iff used t).mp (hmain.2 hf t ht)
    · rw [hf] at h
      exact absurd h (by simp)
  · intro hall
    unfold slotAllocate
    rcases hf : (List.range MAX_SLOTS).find? (fun s => !(used.contains s)) with _ | v
    · rfl
    · obtain ⟨h1, h2, _⟩ := hmain.1 v hf
      exact absurd (hall v h1) ((notContains_true_iff used v).mp h2)
  · simp [slotRelease, List.filter_filter]
  · intro hfree
    unfold slotRelease
    rw [List.filter_eq_self]
    intro a ha
    simp only [ne_eq, decide_eq_true_eq]
    intro he
    subst he
    exact hfree ha
  · intro hlt hall
    have hspec := find?_range_spec (fun s => !((slotRelease used slot).contains s)) 256
    unfold slotAllocate
    rcases hf : (List.range MAX_SLOTS).find? (fun s => !((slotRelease used slot).contains s))
      with _ | v
    · exfalso
      have hmem := (notContains_false_iff _ slot).mp (hspec.2 hf slot hlt)
      exact ((mem_slotRelease used slot slot).mp hmem).2 rfl
    · obtain ⟨h1, h2, h3⟩ := hspec.1 v hf
      have hv : v ∉ slotRelease used slot := (notContains_true_iff _ v).mp h2
      have hveq : v = slot := by
        by_contra hne
        rcases Nat.lt_or_ge v slot with hlt2 | hge
        · exact hv ((mem_slotRelease used slot v).mpr ⟨hall v h1, hne⟩)
        · have hvs : slot < v := by omega
          have hmem := (notContains_false_iff _ slot).mp (h3 slot hvs)
          exact ((mem_slotRelease used slot slot).mp hmem).2 rfl
      subst hveq
      simp

/-- C8 witness: on the full manager `[0,…,255]`, allocation is exhausted;
releasing slot 100 (twice — idempotent) lets allocation return 100. -/
theorem slot_manager_spec_witness :
    slotAllocate (List.range 256) = none ∧
    (slotAllocate (slotRelease (List.range 256) 100)).map (·.1) = some 100 ∧
    slotRelease (slotRelease (List.range 256) 100) 100
      = slotRelease (List.range 256) 100 := by
  have h := slot_manager_spec (List.range 256) 100
  refine ⟨?_, ?_, h.2.2.1⟩
  · exact h.2.1.2 (fun t ht => List.mem_range.mpr ht)
  · exact h.2.2.2.2 (by omega) (fun t ht => List.mem_range.mpr ht)

/-! ### C9: base62 round trip -/

/-- Folding the big-endian digits of `n` recovers `n` modulo `base ^ k`. -/
theorem foldl_beDigits (base k n : Nat) :
    (beDigits base k n).foldl (fun acc d => acc * base + d) 0 = n % base ^ k := by
  induction k generalizing n with
  | zero => simp [beDigits, Nat.mod_one]
  | succ m ih =>
    rw [beDigits, List.foldl_append, ih (n / base)]
    show (n / base % base ^ m) * base + n % base = n % base ^ (m + 1)
    rw [pow_succ, mul_comm (base ^ m) base, Nat.mod_mul]
    ring

/-- `beDigits` produces exactly `k` digits. -/
theorem beDigits_length (base k n : Nat) : (beDigits base k n).length = k := by
  induction k generalizing n with
  | zero => rfl
  | succ m ih => simp [beDigits, ih]

/-- Every digit of `beDigits` is below the base. -/
theorem beDigits_lt (base k n : Nat) (hbase : 0 < base) :
    ∀ d ∈ beDigits base k n, d < base := by
  induction k generalizing n with
  | zero => simp [beDigits]
  | succ m ih =>
    intro d hd
    rw [beDigits, List.mem_append] at hd
    rcases hd with h | h
    · exact ih (n / base) d h
    · simp only [List.mem_singleton] at h
      subst h
      exact Nat.mod_lt n hbase

/-- Folding digits below the base stays below `base ^ length`. -/
theorem foldl_base_lt (base : Nat) (l : List Nat)
    (hd : ∀ d ∈ l, d < base) :
    l.foldl (fun acc d => acc * base + d) 0 < base ^ l.length := by
  induction l using List.reverseRecOn with
  | nil => simp
  | append_singleton l y ih =>
    rw [List.foldl_append, List.length_append]
    have hy : y < base := hd y (by simp)
    have hl : l.foldl (fun acc d => acc * base + d) 0 < base ^ l.length :=
      ih (fun d hdm => hd d (by simp [hdm]))
    calc l.foldl (fun acc d => acc * base + d) 0 * base + y
        < (l.foldl (fun acc d => acc * base + d) 0 + 1) * base := by
          rw [Nat.add_mul, Nat.one_mul]
          omega
      _ ≤ base ^ l.length * base := Nat.mul_le_mul_right base hl
      _ = base ^ (l.length + 1) := by rw [pow_succ]

/-- `beDigits` is a left inverse of the fold on digit lists. -/
theorem beDigits_foldl (base : Nat) (l : List Nat) (hbase : 0 < base)
    (hd : ∀ d ∈ l, d < base) :
    beDigits base l.length (l.foldl (fun acc d => acc * base + d) 0) = l := by
  induction l using List.reverseRecOn with
  | nil => rfl
  | append_singleton l y ih =>
    rw [List.foldl_append, List.length_append]
    have hy : y < base := hd y (by simp)
    show beDigits base (l.length + 1) (l.foldl (fun acc d => acc * base + d) 0 * base + y) = _
    rw [beDigits]
    have hdiv : (l.foldl (fun acc d => acc * base + d) 0 * base + y) / base
        = l.foldl (fun acc d => acc * base + d) 0 := by
      rw [mul_comm _ base, Nat.mul_add_div hbase, Nat.div_eq_of_lt hy, Nat.add_zero]
    have hmod : (l.foldl (fun acc d => acc * base + d) 0 * base + y) % base = y := by
      rw [mul_comm _ base, Nat.mul_add_mod, Nat.mod_eq_of_lt hy]
    rw [hdiv, hmod, ih (fun d hdm => hd d (by simp [hdm]))]

/-- Every digit below 62 survives the alphabet and the decode match. -/
theorem b62_val_alphabet : ∀ d, d < 62 → b62_val (ALPHABET.getD d 48) = some d := by
  decide

/-- The decode loop over successfully converting characters is the plain
fold, taken modulo `2 ^ 128`. -/
theorem decodeLoop_map (e : Nat → Nat) (l : List Nat)
    (he : ∀ d ∈ l, b62_val (e d) = some d) (a : Nat) :
    decodeLoop (a % 2 ^ 128) (l.map e)
      = some ((l.foldl (fun num idx => num * 62 + idx) a) % 2 ^ 128) := by
  induction l generalizing a with
  | nil => rfl
  | cons d rest ih =>
    have hd := he d (by simp)
    rw [List.map_cons, decodeLoop, hd]
    have hmeq : (a % 2 ^ 128 * 62 + d) % 2 ^ 128 = (a * 62 + d) % 2 ^ 128 :=
      Nat.ModEq.add_right d (Nat.ModEq.mul_right 62 (Nat.mod_modEq a (2 ^ 128)))
    show decodeLoop ((a % 2 ^ 128 * 62 + d) % 2 ^ 128) (rest.map e)
      = some ((rest.foldl (fun num idx => num * 62 + idx) (a * 62 + d)) % 2 ^ 128)
    rw [hmeq]
    exact ih (fun x hx => he x (by simp [hx])) (a * 62 + d)

/-- C9: decoding an encoded 16-byte value returns exactly those bytes, and
the encoded string always has length 22. -/
theorem base62_round_trip (bytes : List Nat) (hlen : bytes.length = 16)
    (hb : ∀ b ∈ bytes, b < 256) :
    base62_decode (base62_encode bytes) = some bytes ∧
    (base62_encode bytes).length = 22 := by
  have hn : u128_from_be_bytes bytes < 2 ^ 128 := by
    have h := foldl_base_lt 256 bytes hb
    rw [hlen] at h
    have h2 : (256 : Nat) ^ 16 = 2 ^ 128 := by norm_num
    rw [h2] at h
    exact h
  have hlt62 : u128_from_be_bytes bytes < 62 ^ ENCODED_LENGTH := by
    have h2 : (2 : Nat) ^ 128 < 62 ^ ENCODED_LENGTH := by norm_num [ENCODED_LENGTH]
    omega
  have hdig := beDigits_lt 62 ENCODED_LENGTH (u128_from_be_bytes bytes) (by omega)
  have hlen_enc : (base62_encode bytes).length = 22 := by
    rw [base62_encode, List.length_map, beDigits_length]
    rfl
  refine ⟨?_, hlen_enc⟩
  rw [base62_decode, if_neg]
  · rw [base62_encode]
    have hmap := decodeLoop_map (fun d => ALPHABET.getD d 48)
      (beDigits 62 ENCODED_LENGTH (u128_from_be_bytes bytes))
      (fun d hd => b62_val_alphabet d (hdig d hd)) 0
    simp only [Nat.zero_mod] at hmap
    rw [hmap, foldl_beDigits, Nat.mod_eq_of_lt hlt62, Nat.mod_eq_of_lt hn]
    have hinv : beDigits 256 16 (u128_from_be_bytes bytes) = bytes := by
      have h := beDigits_foldl 256 bytes (by omega) hb
      rw [hlen] at h
      exact h
    show some (beDigits 256 16 (u128_from_be_bytes bytes)) = some bytes
    rw [hinv]
  · rw [hlen_enc]
    decide

/-- C9 witness: the round trip evaluated on the concrete 16-byte input
`[1,…,16]`. -/
theorem base62_round_trip_witness :
    base62_decode (base62_encode [1, 2, 3, 4, 5, 6, 7, 8, 9, 10, 11, 12, 13, 14, 15, 16])
      = some [1, 2, 3, 4, 5, 6, 7, 8, 9, 10, 11, 12, 13, 14, 15, 16] ∧
    (base62_encode [1, 2, 3, 4, 5, 6, 7, 8, 9, 10, 11, 12, 13, 14, 15, 16]).length = 22 :=
  base62_round_trip [1, 2, 3, 4, 5, 6, 7, 8, 9, 10, 11, 12, 13, 14, 15, 16]
    (by decide) (by decide)

/-! ### C5 and C7: exec stream sequencing and exit codes -/

/-- Unfolding of `runExecEvents` through the pair destructuring. -/
theorem runExecEvents_def (o : ExecOracle) :
    runExecEvents o = (execChunkEvents 0 o.chunks).2
      ++ [⟨(execChunkEvents 0 o.chunks).1 + 1,
        .exit ⟨execExitCode o.timedOut o.exitStatus, execCpuMs o, o.peakMem, o.durationMs⟩⟩] := by
  unfold runExecEvents
  rcases hp : execChunkEvents 0 o.chunks with ⟨n, evs⟩
  rfl

/-- The chunk loop advances `seq` only when it emits, and its events carry
exactly the consecutive sequence numbers from `s + 1` to the final `seq`. -/
theorem execChunkEvents_seqs (l : List (ChunkSrc × List Nat)) (s : Nat) :
    s ≤ (execChunkEvents s l).1 ∧
    seqsOf (execChunkEvents s l).2 = List.range' (s + 1) ((execChunkEvents s l).1 - s) := by
  induction l generalizing s with
  | nil => simp [execChunkEvents, seqsOf]
  | cons c rest ih =>
    by_cases hc : c.2.isEmpty
    · rw [execChunkEvents, if_pos hc]
      exact ih s
    · rw [execChunkEvents, if_neg hc]
      rcases hp : execChunkEvents (s + 1) rest with ⟨n, evs⟩
      obtain ⟨ih1, ih2⟩ := ih (s + 1)
      rw [hp] at ih1 ih2
      simp only at ih1 ih2 ⊢
      constructor
      · omega
      · rw [seqsOf, List.map_cons]
        rw [seqsOf] at ih2
        rw [ih2]
        have hn : n - s = (n - (s + 1)) + 1 := by omega
        rw [hn]
        rfl

/-- C5: in every exec event stream the `seq` values strictly increase, the
first event has `seq` 1, and the exit event is last and carries the maximum
`seq`. -/
theorem exec_seq_monotone (o : ExecOracle) :
    List.Chain' (· < ·) (seqsOf (runExecEvents o)) ∧
    (runExecEvents o).head?.map (·.seq) = some 1 ∧
    ∃ pre ex, runExecEvents o = pre ++ [ex] ∧ isExitEv ex = true ∧
      ∀ e ∈ pre, e.seq < ex.seq := by
  obtain ⟨h0, hseqs⟩ := execChunkEvents_seqs o.chunks 0
  have hdef := runExecEvents_def o
  rcases hp : execChunkEvents 0 o.chunks with ⟨n, evs⟩
  rw [hp] at h0 hseqs hdef
  simp only [Nat.sub_zero, Nat.zero_add] at h0 hseqs hdef
  have hseqs2 : seqsOf (runExecEvents o) = List.range' 1 (n + 1) := by
    rw [hdef, seqsOf, List.map_append]
    rw [seqsOf] at hseqs
    rw [hseqs, List.range'_1_concat]
    simp [Nat.add_comm]
  refine ⟨?_, ?_, evs,
    ⟨n + 1, .exit ⟨execExitCode o.timedOut o.exitStatus, execCpuMs o, o.peakMem,
      o.durationMs⟩⟩, hdef, rfl, ?_⟩
  · rw [hseqs2]
    apply List.Pairwise.chain'
    apply List.pairwise_lt_range'
    norm_num
  · rw [hdef, List.head?_append]
    rcases hcase : evs with _ | ⟨h, t⟩
    · have hn0 : n = 0 := by
        have hl := congrArg List.length hseqs
        rw [hcase] at hl
        simp [seqsOf] at hl
        omega
      subst hcase
      simp [hn0]
    · subst hcase
      have hh1 : h.seq = 1 := by
        rcases n with _ | m
        · rw [show List.range' 1 0 = [] from rfl] at hseqs
          simp [seqsOf] at hseqs
        · rw [show List.range' 1 (m + 1) = 1 :: List.range' 2 m from rfl] at hseqs
          have hh := congrArg List.head? hseqs
          simp [seqsOf] at hh
          exact hh
      simp [hh1]
  · intro e he
    have hm : e.seq ∈ seqsOf evs := List.mem_map_of_mem (·.seq) he
    rw [hseqs] at hm
    rw [List.mem_range'_1] at hm
    show e.seq < n + 1
    omega

/-- C5 witness: the theorem applied to a concrete oracle with one stdout
chunk, one empty read and one stderr chunk. -/
theorem exec_seq_monotone_witness :
    List.Chain' (· < ·) (seqsOf (runExecEvents
      ⟨[(.stdout, [104, 105]), (.stderr, []), (.stderr, [33])], false,
        some ⟨some 0, none⟩, 0, 0, 100, 0, 7⟩)) ∧
    (runExecEvents ⟨[(.stdout, [104, 105]), (.stderr, []), (.stderr, [33])], false,
      some ⟨some 0, none⟩, 0, 0, 100, 0, 7⟩).head?.map (·.seq) = some 1 ∧
    ∃ pre ex, runExecEvents ⟨[(.stdout, [104, 105]), (.stderr, []), (.stderr, [33])], false,
        some ⟨some 0, none⟩, 0, 0, 100, 0, 7⟩ = pre ++ [ex] ∧ isExitEv ex = true ∧
      ∀ e ∈ pre, e.seq < ex.seq :=
  exec_seq_monotone ⟨[(.stdout, [104, 105]), (.stderr, []), (.stderr, [33])], false,
    some ⟨some 0, none⟩, 0, 0, 100, 0, 7⟩

/-- C7: the exit code of the final exit event is `-1` on timeout, else the
exit code of a normally exited process, else `128 + N` for a process killed
by signal `N`, else `-1` when reaping failed. -/
theorem exec_exit_code_spec (o : ExecOracle) :
    (o.timedOut = true → lastExitCode (runExecEvents o) = some (-1)) ∧
    (∀ c sig, o.timedOut = false → o.exitStatus = some ⟨some c, sig⟩ →
      lastExitCode (runExecEvents o) = some c) ∧
    (∀ n, o.timedOut = false → o.exitStatus = some ⟨none, some n⟩ →
      lastExitCode (runExecEvents o) = some (128 + n)) ∧
    (o.timedOut = false → o.exitStatus = none →
      lastExitCode (runExecEvents o) = some (-1)) := by
  have hlast : lastExitCode (runExecEvents o)
      = some (execExitCode o.timedOut o.exitStatus) := by
    rw [lastExitCode, runExecEvents_def, List.getLast?_concat]
    rfl
  refine ⟨?_, ?_, ?_, ?_⟩
  · intro ht
    rw [hlast]
    simp [execExitCode, ht]
  · intro c sig ht hs
    rw [hlast]
    simp [execExitCode, ht, hs]
  · intro n ht hs
    rw [hlast]
    simp [execExitCode, ht, hs]
  · intro ht hs
    rw [hlast]
    simp [execExitCode, ht, hs]

/-- C7 witness: the four exit-code cases evaluated on concrete oracles with
no read chunks. -/
theorem exec_exit_code_spec_witness :
    lastExitCode (runExecEvents ⟨[], true, some ⟨some 7, none⟩, 0, 0, 100, 0, 0⟩)
      = some (-1) ∧
    lastExitCode (runExecEvents ⟨[], false, some ⟨some 42, none⟩, 0, 0, 100, 0, 0⟩)
      = some 42 ∧
    lastExitCode (runExecEvents ⟨[], false, some ⟨none, some 9⟩, 0, 0, 100, 0, 0⟩)
      = some 137 ∧
    lastExitCode (runExecEvents ⟨[], false, none, 0, 0, 100, 0, 0⟩) = some (-1) := by
  refine ⟨?_, ?_, ?_, ?_⟩
  · exact (exec_exit_code_spec _).1 rfl
  · exact (exec_exit_code_spec _).2.1 42 none rfl rfl
  · have h := (exec_exit_code_spec ⟨[], false, some ⟨none, some 9⟩, 0, 0, 100, 0, 0⟩).2.2.1
      9 rfl rfl
    simpa using h
  · exact (exec_exit_code_spec _).2.2.2 rfl rfl

/-! ### C3: the GetFile stream -/

/-- The read loop on an empty remainder: the final empty `done` chunk. -/
theorem getFileLoop_nil (path : String) (offset : Nat) :
    getFileLoop path [] offset = [⟨path, [], offset, true⟩] := by
  rw [getFileLoop]
  simp

/-- The read loop on a short remainder: one final non-empty `done` chunk. -/
theorem getFileLoop_short (path : String) (remaining : List Nat) (offset : Nat)
    (hpos : 0 < remaining.length) (hs : remaining.length < GET_FILE_CHUNK_SIZE) :
    getFileLoop path remaining offset
      = [⟨path, remaining.take remaining.length, offset, true⟩] := by
  rw [getFileLoop]
  have hmin : min remaining.length GET_FILE_CHUNK_SIZE = remaining.length := by omega
  simp only [hmin]
  rw [dif_neg (by omega)]
  simp [hs]

/-- The read loop on a full-chunk remainder: a non-final chunk, then recurse. -/
theorem getFileLoop_long (path : String) (remaining : List Nat) (offset : Nat)
    (hb : GET_FILE_CHUNK_SIZE ≤ remaining.length) :
    getFileLoop path remaining offset
      = ⟨path, remaining.take GET_FILE_CHUNK_SIZE, offset, false⟩
        :: getFileLoop path (remaining.drop GET_FILE_CHUNK_SIZE)
            (offset + GET_FILE_CHUNK_SIZE) := by
  rw [getFileLoop]
  have hmin : min remaining.length GET_FILE_CHUNK_SIZE = GET_FILE_CHUNK_SIZE := by omega
  simp only [hmin]
  rw [dif_neg (by simp [GET_FILE_CHUNK_SIZE])]
  simp

/-- C3 counterexample: for the existing 3-byte file `[7,7,7]` the stream is a
single chunk carrying the 3 bytes with `done = true` — the final element of
the stream is not an empty chunk, contradicting the claim that the empty
`done = true` chunk is always the last element for files of every size. -/
theorem get_file_counterexample :
    run_get_file "f" [7, 7, 7] = [⟨"f", [7, 7, 7], 0, true⟩] ∧
    (run_get_file "f" [7, 7, 7]).getLast?.map (·.data) = some [7, 7, 7] := by
  have h := getFileLoop_short "f" [7, 7, 7] 0 (by simp) (by simp [GET_FILE_CHUNK_SIZE])
  rw [run_get_file, h]
  simp

/-- C3 (amended): the stream is zero or more non-empty `done = false` chunks
followed by exactly one final `done = true` chunk, which is empty exactly
when the file size is a multiple of the 64 KiB chunk size (in particular for
the empty file); for other sizes the final chunk carries the remaining bytes
and no empty chunk follows. -/
theorem get_file_stream_spec (path : String) (content : List Nat) :
    ∃ pre last, run_get_file path content = pre ++ [last] ∧
      last.done = true ∧
      (∀ c ∈ pre, c.data ≠ [] ∧ c.done = false) ∧
      (last.data = [] ↔ content.length % GET_FILE_CHUNK_SIZE = 0) := by
  suffices h : ∀ (k : Nat) (remaining : List Nat), remaining.length ≤ k → ∀ (offset : Nat),
      ∃ pre last, getFileLoop path remaining offset = pre ++ [last] ∧
        last.done = true ∧
        (∀ c ∈ pre, c.data ≠ [] ∧ c.done = false) ∧
        (last.data = [] ↔ remaining.length % GET_FILE_CHUNK_SIZE = 0) by
    exact h content.length content (Nat.le_refl _) 0
  intro k
  induction k with
  | zero =>
    intro remaining hlen offset
    have h0 : remaining = [] := List.eq_nil_of_length_eq_zero (by omega)
    subst h0
    exact ⟨[], ⟨path, [], offset, true⟩, by rw [getFileLoop_nil, List.nil_append], rfl, by simp, by simp⟩
  | succ m ih =>
    intro remaining hlen offset
    rcases Nat.lt_or_ge remaining.length GET_FILE_CHUNK_SIZE with hsmall | hbig
    · rcases Nat.eq_zero_or_pos remaining.length with h0 | hpos
      · have h0e : remaining = [] := List.eq_nil_of_length_eq_zero h0
        subst h0e
        exact ⟨[], ⟨path, [], offset, true⟩, by rw [getFileLoop_nil, List.nil_append], rfl, by simp, by simp⟩
      · refine ⟨[], ⟨path, remaining.take remaining.length, offset, true⟩,
          by rw [getFileLoop_short path remaining offset hpos hsmall, List.nil_append], rfl, by simp, ?_⟩
        simp only [List.take_length]
        constructor
        · intro he
          rw [he] at hpos
          simp at hpos
        · intro hmod
          rw [Nat.mod_eq_of_lt hsmall] at hmod
          omega
    · have hCpos : 0 < GET_FILE_CHUNK_SIZE := by norm_num [GET_FILE_CHUNK_SIZE]
      obtain ⟨pre, last, heq, hdone, hpre, hiff⟩ :=
        ih (remaining.drop GET_FILE_CHUNK_SIZE)
          (by simp only [List.length_drop]; omega)
          (offset + GET_FILE_CHUNK_SIZE)
      refine ⟨⟨path, remaining.take GET_FILE_CHUNK_SIZE, offset, false⟩ :: pre, last, ?_,
        hdone, ?_, ?_⟩
      · rw [getFileLoop_long path remaining offset hbig, heq]
        rfl
      · intro c hc
        rcases List.mem_cons.mp hc with h | h
        · subst h
          refine ⟨?_, rfl⟩
          show remaining.take GET_FILE_CHUNK_SIZE ≠ []
          intro he
          have hlen2 : (remaining.take GET_FILE_CHUNK_SIZE).length = GET_FILE_CHUNK_SIZE := by
            simp only [List.length_take]
            omega
          rw [he] at hlen2
          simp [GET_FILE_CHUNK_SIZE] at hlen2
        · exact hpre c h
      · rw [hiff, List.length_drop]
        have hc : (0 : Nat) < GET_FILE_CHUNK_SIZE := by simp [GET_FILE_CHUNK_SIZE]
        rw [GET_FILE_CHUNK_SIZE] at hbig ⊢
        omega

/-- C3 witness: the amended stream shape evaluated on the 2-byte file
`[1,2]`. -/
theorem get_file_stream_spec_witness :
    ∃ pre last, run_get_file "w" [1, 2] = pre ++ [last] ∧
      last.done = true ∧
      (∀ c ∈ pre, c.data ≠ [] ∧ c.done = false) ∧
      (last.data = [] ↔ ([1, 2] : List Nat).length % GET_FILE_CHUNK_SIZE = 0) :=
  get_file_stream_spec "w" [1, 2]

/-! ### C10: session exec resource usage -/

/-- Every exit event the session exec loop emits — timeout, EIO, or sentinel
detection — carries `cpu_ms = 0` and `peak_memory_bytes = 0`. -/
theorem sessionExecLoop_exit_zero (marker cmd : List Nat) :
    ∀ (sched : List ReadStep) (seq : Nat) (pending : List Nat),
      ∀ e ∈ sessionExecLoop marker cmd seq pending sched,
        ∀ x, e.body = ExecBody.exit x → x.cpu_ms = 0 ∧ x.peak_memory_bytes = 0 := by
  intro sched
  induction sched with
  | nil =>
    intro seq pending e he x hx
    simp [sessionExecLoop] at he
  | cons step rest ih =>
    intro seq pending e he x hx
    rcases step with el | ⟨bytes, el⟩ | el | _
    · simp only [sessionExecLoop, List.mem_singleton] at he
      subst he
      simp only at hx
      obtain rfl : (⟨-1, 0, 0, el⟩ : ExitEvent) = x := by injection hx
      exact ⟨rfl, rfl⟩
    · simp only [sessionExecLoop] at he
      by_cases hb : bytes.isEmpty
      · rw [if_pos hb] at he
        exact ih seq pending e he x hx
      · rw [if_neg hb] at he
        rcases hE : extract_sentinel (pending ++ bytes) marker with _ | ⟨output, exitCode⟩
        · rw [hE] at he
          simp only at he
          by_cases hs : (if (pending ++ bytes).length > 256
              then (pending ++ bytes).length - 256 else 0) > 0
          · rw [if_pos hs] at he
            by_cases hclean : (strip_command_echo
                ((pending ++ bytes).take (if (pending ++ bytes).length > 256
                  then (pending ++ bytes).length - 256 else 0)) cmd).isEmpty
            · rw [if_pos hclean] at he
              exact ih _ _ e he x hx
            · rw [if_neg hclean] at he
              rcases List.mem_cons.mp he with h | h
              · subst h
                simp at hx
              · exact ih _ _ e h x hx
          · rw [if_neg hs] at he
            exact ih _ _ e he x hx
        · rw [hE] at he
          simp only at he
          by_cases ho : output.isEmpty
          · rw [if_pos ho] at he
            simp only [List.mem_singleton] at he
            subst he
            simp only at hx
            obtain rfl : (⟨exitCode, 0, 0, el⟩ : ExitEvent) = x := by injection hx
            exact ⟨rfl, rfl⟩
          · rw [if_neg ho] at he
            by_cases hclean : (strip_command_echo output cmd).isEmpty
            · rw [if_pos hclean] at he
              simp only [List.mem_singleton] at he
              subst he
              simp only at hx
              obtain rfl : (⟨exitCode, 0, 0, el⟩ : ExitEvent) = x := by injection hx
              exact ⟨rfl, rfl⟩
            · rw [if_neg hclean] at he
              rcases List.mem_cons.mp he with h | h
              · subst h
                simp at hx
              · simp only [List.mem_singleton] at h
                subst h
                simp only at hx
                obtain rfl : (⟨exitCode, 0, 0, el⟩ : ExitEvent) = x := by injection hx
                exact ⟨rfl, rfl⟩
    · simp only [sessionExecLoop, List.mem_singleton] at he
      subst he
      simp only at hx
      obtain rfl : (⟨-1, 0, 0, el⟩ : ExitEvent) = x := by injection hx
      exact ⟨rfl, rfl⟩
    · simp [sessionExecLoop] at he

/-- C10: every exit event of a session exec — sentinel, timeout or EIO —
carries `cpu_ms = 0` and `peak_memory_bytes = 0`, while the plain exec path
can report non-zero CPU usage. -/
theorem session_exec_zero_resource_usage (marker cmd : List Nat) (sched : List ReadStep) :
    (∀ e ∈ run_session_exec marker cmd sched, ∀ x, e.body = ExecBody.exit x →
      x.cpu_ms = 0 ∧ x.peak_memory_bytes = 0) ∧
    (∃ o : ExecOracle, ∃ x : ExitEvent,
      runExecEvents o = [⟨1, .exit x⟩] ∧ x.cpu_ms ≠ 0) := by
  constructor
  · exact fun e he x hx => sessionExecLoop_exit_zero marker cmd sched 0 [] e he x hx
  · refine ⟨⟨[], false, some ⟨some 0, none⟩, 0, 100, 100, 0, 7⟩, ⟨0, 1000, 0, 7⟩, ?_, ?_⟩
    · rfl
    · simp

/-- C10 witness: the zero-usage property evaluated on a concrete schedule
in which the sentinel, a timeout and an EIO each produce an exit event. -/
theorem session_exec_zero_resource_usage_witness :
    (∀ e ∈ run_session_exec (sentinelMarker [49]) [108, 115]
        [ReadStep.dataRead (sentinelMarker [49] ++ [52, 50, 95, 95]) 5],
      ∀ x, e.body = ExecBody.exit x → x.cpu_ms = 0 ∧ x.peak_memory_bytes = 0) ∧
    (∃ o : ExecOracle, ∃ x : ExitEvent,
      runExecEvents o = [⟨1, .exit x⟩] ∧ x.cpu_ms ≠ 0) :=
  session_exec_zero_resource_usage (sentinelMarker [49]) [108, 115]
    [ReadStep.dataRead (sentinelMarker [49] ++ [52, 50, 95, 95]) 5]

/-! ### C4: sentinel extraction and chunk-boundary detection -/

/-- On ASCII bytes the lossy UTF-8 conversion is the identity, so string
byte positions and raw byte positions coincide. -/
theorem utf8Lossy_ascii : ∀ (l : List Nat), (∀ b ∈ l, b ≤ 0x7F) → utf8Lossy l = l := by
  intro l
  induction l with
  | nil => intro _; rfl
  | cons b rest ih =>
    intro h
    have hb : b ≤ 0x7F := h b (by simp)
    have hrec := ih (fun x hx => h x (by simp [hx]))
    calc utf8Lossy (b :: rest) = b :: utf8Lossy rest := by
          conv_lhs => rw [utf8Lossy.eq_def]
          simp [hb]
      _ = b :: rest := by rw [hrec]

/-- `strFind` returns the position of an occurrence none of whose
predecessors is an occurrence. -/
theorem strFind_eq_some (needle : List Nat) (hne : needle ≠ []) :
    ∀ (hay : List Nat) (q : Nat), needle.isPrefixOf (hay.drop q) = true →
      (∀ i, i < q → needle.isPrefixOf (hay.drop i) = false) →
      strFind hay needle = some q := by
  intro hay
  induction hay with
  | nil =>
    intro q hq hmin
    rw [List.drop_nil] at hq
    rw [List.isPrefixOf_iff_prefix] at hq
    exact absurd (List.prefix_nil.mp hq) hne
  | cons h t ih =>
    intro q hq hmin
    rcases q with _ | q2
    · rw [List.drop_zero] at hq
      rw [strFind, if_pos hq]
    · have h0 := hmin 0 (Nat.succ_pos q2)
      rw [List.drop_zero] at h0
      rw [strFind, if_neg (by simp [h0])]
      rw [ih q2 hq (fun i hi => hmin (i + 1) (by omega))]
      rfl

/-- `strFind` misses exactly when no position starts an occurrence. -/
theorem strFind_eq_none (needle : List Nat) :
    ∀ (hay : List Nat), (∀ i, needle.isPrefixOf (hay.drop i) = false) →
      strFind hay needle = none := by
  intro hay
  induction hay with
  | nil =>
    intro h
    have h0 := h 0
    rw [List.drop_zero] at h0
    rw [strFind, if_neg (by simp [h0])]
  | cons hh t ih =>
    intro h
    have h0 := h 0
    rw [List.drop_zero] at h0
    rw [strFind, if_neg (by simp [h0])]
    rw [ih (fun i => h (i + 1))]
    rfl

/-- `str::parse::<i32>` on a non-empty digit string within range returns its
decimal value. -/
theorem parseI32_digits (ds : List Nat) (hne : ds ≠ [])
    (hdig : ∀ c ∈ ds, 48 ≤ c ∧ c ≤ 57) (hval : natDigitsVal ds ≤ 2 ^ 31 - 1) :
    parseI32 ds = some ((natDigitsVal ds : Nat) : Int) := by
  rw [natDigitsVal] at hval
  rcases ds with _ | ⟨d, rest⟩
  · exact absurd rfl hne
  · obtain ⟨hd1, hd2⟩ := hdig d (by simp)
    rw [parseI32, if_neg (by omega), if_neg (by omega)]
    have hall : (d :: rest).all (fun c => 48 ≤ c && c ≤ 57) = true := by
      rw [List.all_eq_true]
      intro x hx
      simp only [Bool.and_eq_true, decide_eq_true_eq]
      exact ⟨(hdig x hx).1, (hdig x hx).2⟩
    rw [parseI32core, if_neg (by simp [hall])]
    rw [if_pos]
    · simp [natDigitsVal]
    · constructor
      · simp only [one_mul]
        omega
      · simp only [one_mul]
        omega

/-- The bytes of the `"__"` suffix never start inside a window that is a
prefix of the digits followed by a single underscore. -/
theorem strFind_suffix_none (l ds : List Nat) (hdig : ∀ c ∈ ds, 48 ≤ c ∧ c ≤ 57)
    (hl : l <+: ds ++ [95]) : strFind l SENTINEL_SUFFIX = none := by
  apply strFind_eq_none
  intro i
  rcases hdrop : l.drop i with _ | ⟨x, xs⟩
  · rfl
  · have hxl : l[i]? = some x := by
      rw [← List.head?_drop, hdrop]
      rfl
    have hi : i < l.length := by
      by_contra hge
      rw [List.getElem?_eq_none (by omega)] at hxl
      exact absurd hxl (by simp)
    have hxe : (ds ++ [95])[i]? = some x := by
      obtain ⟨t, ht⟩ := hl
      rw [← ht]
      rw [List.getElem?_append_left hi]
      exact hxl
    by_cases hx95 : x = 95
    · subst hx95
      have hige : ds.length ≤ i := by
        by_contra hlt
        rw [List.getElem?_append_left (by omega)] at hxe
        have hmem := List.getElem?_mem hxe
        obtain ⟨_, h57⟩ := hdig 95 hmem
        omega
      have hlen : l.length ≤ ds.length + 1 := by
        have := hl.length_le
        simpa using this
      have hxs : xs = [] := by
        have hdl := congrArg List.length hdrop
        rw [List.length_drop] at hdl
        simp only [List.length_cons] at hdl
        have : xs.length = 0 := by omega
        exact List.eq_nil_of_length_eq_zero this
      subst hxs
      rfl
    · show SENTINEL_SUFFIX.isPrefixOf (x :: xs) = false
      rw [SENTINEL_SUFFIX]
      show (95 == x && List.isPrefixOf [95] xs) = false
      have hbx : (95 == x) = false := by
        simp only [beq_eq_false_iff_ne, ne_eq]
        omega
      rw [hbx, Bool.false_and]

/-- Exact extraction: when the buffer is ASCII, the marker first occurs at
position `pre.length` and is followed by in-range digits and the `"__"`
suffix, `extract_sentinel` returns exactly the bytes before the marker and
the digit value. -/
theorem extract_sentinel_exact (pre marker ds tail : List Nat)
    (hascii : ∀ b ∈ pre ++ (marker ++ (ds ++ ([95, 95] ++ tail))), b ≤ 0x7F)
    (hmne : marker ≠ [])
    (hfirst : ∀ i, i < pre.length →
      marker.isPrefixOf ((pre ++ (marker ++ (ds ++ ([95, 95] ++ tail)))).drop i) = false)
    (hdne : ds ≠ []) (hdig : ∀ c ∈ ds, 48 ≤ c ∧ c ≤ 57)
    (hval : natDigitsVal ds ≤ 2 ^ 31 - 1) :
    extract_sentinel (pre ++ (marker ++ (ds ++ ([95, 95] ++ tail)))) marker
      = some (pre, ((natDigitsVal ds : Nat) : Int)) := by
  have hlossy := utf8Lossy_ascii _ hascii
  have hocc : marker.isPrefixOf
      ((pre ++ (marker ++ (ds ++ ([95, 95] ++ tail)))).drop pre.length) = true := by
    rw [List.drop_left]
    rw [List.isPrefixOf_iff_prefix]
    exact ⟨ds ++ ([95, 95] ++ tail), rfl⟩
  have hfind1 : strFind (pre ++ (marker ++ (ds ++ ([95, 95] ++ tail)))) marker
      = some pre.length := strFind_eq_some marker hmne _ pre.length hocc hfirst
  have hafter : (pre ++ (marker ++ (ds ++ ([95, 95] ++ tail)))).drop
      (pre.length + marker.length) = ds ++ ([95, 95] ++ tail) := by
    rw [← List.length_append pre marker, ← List.append_assoc pre marker, List.drop_left]
  have hfind2 : strFind (ds ++ ([95, 95] ++ tail)) SENTINEL_SUFFIX = some ds.length := by
    apply strFind_eq_some SENTINEL_SUFFIX (by simp [SENTINEL_SUFFIX])
    · rw [List.drop_left]
      rw [List.isPrefixOf_iff_prefix, SENTINEL_SUFFIX]
      exact ⟨tail, rfl⟩
    · intro i hi
      rw [List.drop_append_of_le_length (by omega)]
      rcases hd : ds.drop i with _ | ⟨x, xs⟩
      · have hdl := congrArg List.length hd
        rw [List.length_drop] at hdl
        simp at hdl
        omega
      · have hx : x ∈ ds := by
          have hxm : x ∈ ds.drop i := by
            rw [hd]
            simp
          exact List.mem_of_mem_drop hxm
        obtain ⟨_, h57⟩ := hdig x hx
        show SENTINEL_SUFFIX.isPrefixOf (x :: (xs ++ ([95, 95] ++ tail))) = false
        rw [SENTINEL_SUFFIX]
        show (95 == x && List.isPrefixOf [95] (xs ++ ([95, 95] ++ tail))) = false
        have hbx : (95 == x) = false := by
          simp only [beq_eq_false_iff_ne, ne_eq]
          omega
        rw [hbx, Bool.false_and]
  have htake : (ds ++ ([95, 95] ++ tail)).take ds.length = ds := List.take_left ds _
  rw [extract_sentinel]
  rw [hlossy, hfind1]
  simp only
  rw [hafter, hfind2]
  simp only
  rw [htake, parseI32_digits ds hdne hdig hval]
  rw [List.take_left]
  rfl

/-- C4 counterexample: with the single non-UTF-8 byte `0xFF` before the
marker, `extract_sentinel` reports `[255, 95, 95]` as the output — not the
bytes `[255]` that precede the marker — because the marker position is an
index into the lossy string, where `0xFF` became the three-byte replacement
character. -/
theorem extract_sentinel_counterexample :
    extract_sentinel (255 :: (sentinelMarker [49] ++ [48, 95, 95])) (sentinelMarker [49])
      = some ([255, 95, 95], 0) ∧
    255 :: (sentinelMarker [49] ++ [48, 95, 95])
      = [255] ++ sentinelMarker [49] ++ [48, 95, 95] ∧
    ([255, 95, 95] : List Nat) ≠ [255] := by
  refine ⟨by decide, by decide, by decide⟩

/-- The read loop always detects a sentinel whose complete word (marker,
digits, `"__"` suffix) arrives anywhere in the chunked ASCII stream: the
256-byte retention of un-streamed bytes keeps the word intact across chunk
boundaries, and the loop ends with the exit event carrying the digit value.
The induction tracks the already-streamed prefix (`flushed`) and the
retained window (`pending`). -/
theorem sessionLoop_detects (marker cmd ds pre rest total : List Nat)
    (hmne : marker ≠ [])
    (hdne : ds ≠ []) (hdig : ∀ c ∈ ds, 48 ≤ c ∧ c ≤ 57)
    (hval : natDigitsVal ds ≤ 2 ^ 31 - 1)
    (hwlen : marker.length + ds.length + 2 ≤ 256)
    (htot : total = pre ++ (marker ++ (ds ++ ([95, 95] ++ rest))))
    (hascii : ∀ x ∈ total, x ≤ 0x7F)
    (huniq : ∀ i, marker.isPrefixOf (total.drop i) = true → i = pre.length) :
    ∀ (sched : List ReadStep), (∀ st ∈ sched, ∃ b el, st = ReadStep.dataRead b el) →
    ∀ (flushed pending : List Nat) (seq : Nat),
      (flushed ++ pending) ++ (sched.map stepBytes).flatten = total →
      pending.length = min (flushed ++ pending).length 256 →
      (flushed ++ pending).length < pre.length + (marker.length + ds.length + 2) →
      ∃ evs q dur, sessionExecLoop marker cmd seq pending sched
        = evs ++ [⟨q, ExecBody.exit ⟨((natDigitsVal ds : Nat) : Int), 0, 0, dur⟩⟩] := by
  have hm1 : 1 ≤ marker.length := List.length_pos.mpr hmne
  intro sched
  induction sched with
  | nil =>
    intro _ flushed pending seq htrq hmin hlt
    exfalso
    simp only [List.map_nil, List.flatten_nil, List.append_nil] at htrq
    have hlen := congrArg List.length htrq
    rw [htot] at hlen
    simp only [List.length_append, List.length_cons, List.length_nil] at hlen hlt
    omega
  | cons st sched2 ih =>
    intro hsched flushed pending seq htrq hmin hlt
    obtain ⟨b, el, rfl⟩ := hsched st (by simp)
    have hsched2 : ∀ s ∈ sched2, ∃ b2 el2, s = ReadStep.dataRead b2 el2 :=
      fun s hs => hsched s (by simp [hs])
    by_cases hb : b.isEmpty
    · have hbe : b = [] := by
        rcases b with _ | _
        · rfl
        · simp at hb
      have hstep : sessionExecLoop marker cmd seq pending (.dataRead b el :: sched2)
          = sessionExecLoop marker cmd seq pending sched2 := by
        simp only [sessionExecLoop]
        rw [if_pos hb]
      rw [hstep]
      apply ih hsched2 flushed pending seq _ hmin hlt
      rw [← htrq]
      simp [hbe, stepBytes]
    · have hbne : b ≠ [] := by
        intro hbe
        rw [hbe] at hb
        simp at hb
      have hblen : 1 ≤ b.length := List.length_pos.mpr hbne
      have hr2 : (flushed ++ (pending ++ b)) ++ (sched2.map stepBytes).flatten = total := by
        rw [← htrq]
        simp [stepBytes, List.append_assoc]
      have hfp : flushed.length ≤ pre.length := by
        simp only [List.length_append] at hmin hlt
        omega
      obtain ⟨n2, hn2eq⟩ : ∃ m, m = (flushed ++ (pending ++ b)).length := ⟨_, rfl⟩
      have hn2v : n2 = flushed.length + pending.length + b.length := by
        rw [hn2eq]
        simp only [List.length_append]
        omega
      have hpblen : (pending ++ b).length = n2 - flushed.length := by
        simp only [List.length_append] at hn2v ⊢
        omega
      have hrecvd2 : flushed ++ (pending ++ b) = total.take n2 := by
        rw [hn2eq]
        conv_rhs => rw [← hr2]
        rw [List.take_left]
      have hpend2 : pending ++ b = (total.drop flushed.length).take (n2 - flushed.length) := by
        have h1 : pending ++ b = (flushed ++ (pending ++ b)).drop flushed.length :=
          (List.drop_left _ _).symm
        conv_lhs => rw [h1, hrecvd2]
        rw [List.drop_take]
      have hasc2 : ∀ x ∈ pending ++ b, x ≤ 0x7F := by
        intro x hx
        rw [hpend2] at hx
        exact hascii x (List.mem_of_mem_drop (List.mem_of_mem_take hx))
      have huniq2 : ∀ i, marker.isPrefixOf ((pending ++ b).drop i) = true →
          flushed.length + i = pre.length ∧
          flushed.length + i + marker.length ≤ n2 := by
        intro i hpref
        rw [hpend2, List.drop_take, List.drop_drop] at hpref
        rw [List.isPrefixOf_iff_prefix] at hpref
        have htrans : marker <+: total.drop (flushed.length + i) :=
          hpref.trans (List.take_prefix _ _)
        have hlen2 := hpref.length_le
        rw [List.length_take] at hlen2
        have hle : marker.length ≤ n2 - flushed.length - i :=
          le_trans hlen2 (min_le_left _ _)
        constructor
        · apply huniq
          rw [List.isPrefixOf_iff_prefix]
          exact htrans
        · omega
      by_cases hcomp : pre.length + (marker.length + ds.length + 2) ≤ n2
      · -- the word is complete inside the retained window: extraction succeeds
        have hlendrop : (pre.drop flushed.length).length = pre.length - flushed.length := by
          simp
        have hdecomp : pending ++ b = (pre.drop flushed.length)
            ++ (marker ++ (ds ++ ([95, 95] ++ rest.take
              (n2 - (pre.length + (marker.length + ds.length + 2)))))) := by
          rw [hpend2]
          conv_lhs => rw [htot]
          rw [List.drop_append_of_le_length hfp]
          have harith : n2 - flushed.length
              = (pre.drop flushed.length).length + (n2 - pre.length) := by
            rw [hlendrop]
            omega
          rw [harith, List.take_append]
          congr 1
          have harith2 : n2 - pre.length
              = marker.length + (n2 - pre.length - marker.length) := by
            omega
          rw [harith2, List.take_append]
          congr 1
          have harith3 : n2 - pre.length - marker.length
              = ds.length + (n2 - pre.length - marker.length - ds.length) := by
            omega
          rw [harith3, List.take_append]
          congr 1
          have harith4 : n2 - pre.length - marker.length - ds.length
              = ([95, 95] : List Nat).length
                + (n2 - (pre.length + (marker.length + ds.length + 2))) := by
            simp only [List.length_cons, List.length_nil]
            omega
          rw [harith4, List.take_append]
        have hascii2 : ∀ x ∈ (pre.drop flushed.length)
            ++ (marker ++ (ds ++ ([95, 95] ++ rest.take
              (n2 - (pre.length + (marker.length + ds.length + 2)))))), x ≤ 0x7F := by
          rw [← hdecomp]
          exact hasc2
        have hfirst2 : ∀ i, i < (pre.drop flushed.length).length →
            marker.isPrefixOf (((pre.drop flushed.length)
              ++ (marker ++ (ds ++ ([95, 95] ++ rest.take
                (n2 - (pre.length + (marker.length + ds.length + 2))))))).drop i)
              = false := by
          intro i hi
          rw [hlendrop] at hi
          rcases hP : marker.isPrefixOf (((pre.drop flushed.length)
              ++ (marker ++ (ds ++ ([95, 95] ++ rest.take
                (n2 - (pre.length + (marker.length + ds.length + 2))))))).drop i)
            with _ | _
          · exact hP
          · exfalso
            rw [← hdecomp] at hP
            obtain ⟨heq, _⟩ := huniq2 i hP
            omega
        have hex := extract_sentinel_exact (pre.drop flushed.length) marker ds
          (rest.take (n2 - (pre.length + (marker.length + ds.length + 2))))
          hascii2 hmne hfirst2 hdne hdig hval
        rw [← hdecomp] at hex
        by_cases ho : (pre.drop flushed.length).isEmpty
        · refine ⟨[], seq + 1, el, ?_⟩
          simp only [sessionExecLoop]
          rw [if_neg hb, hex]
          simp only [if_pos ho]
          rfl
        · by_cases hclean : (strip_command_echo (pre.drop flushed.length) cmd).isEmpty
          · refine ⟨[], seq + 1, el, ?_⟩
            simp only [sessionExecLoop]
            rw [if_neg hb, hex]
            simp only [if_neg ho, if_pos hclean]
            rfl
          · refine ⟨[⟨seq + 1, ExecBody.stdoutData
              (strip_command_echo (pre.drop flushed.length) cmd)⟩], seq + 2, el, ?_⟩
            simp only [sessionExecLoop]
            rw [if_neg hb, hex]
            simp only [if_neg ho, if_neg hclean]
            rfl
      · -- the word is still incomplete: extraction fails, flush and recurse
        have hnone : extract_sentinel (pending ++ b) marker = none := by
          rw [extract_sentinel]
          rw [utf8Lossy_ascii _ hasc2]
          by_cases hmlen : pre.length + marker.length ≤ n2
          · have hocc2 : marker.isPrefixOf
                ((pending ++ b).drop (pre.length - flushed.length)) = true := by
              rw [hpend2, List.drop_take, List.drop_drop]
              have hidx : flushed.length + (pre.length - flushed.length) = pre.length := by
                omega
              rw [hidx]
              conv_lhs => rw [htot, List.drop_left]
              have harith5 : n2 - flushed.length - (pre.length - flushed.length)
                  = marker.length + (n2 - pre.length - marker.length) := by
                omega
              rw [harith5, List.take_append]
              rw [List.isPrefixOf_iff_prefix]
              exact ⟨_, rfl⟩
            have hp0 : strFind (pending ++ b) marker
                = some (pre.length - flushed.length) := by
              apply strFind_eq_some marker hmne _ _ hocc2
              intro i hi
              rcases hP : marker.isPrefixOf ((pending ++ b).drop i) with _ | _
              · rfl
              · exfalso
                obtain ⟨heq, _⟩ := huniq2 i hP
                omega
            rw [hp0]
            simp only
            have hafter2 : (pending ++ b).drop
                (pre.length - flushed.length + marker.length)
                = (ds ++ [95]).take (n2 - pre.length - marker.length) := by
              rw [hpend2, List.drop_take, List.drop_drop]
              have hidx : flushed.length + (pre.length - flushed.length + marker.length)
                  = pre.length + marker.length := by
                omega
              rw [hidx]
              have hdrop2 : total.drop (pre.length + marker.length)
                  = (ds ++ [95]) ++ ([95] ++ rest) := by
                rw [htot, ← List.length_append pre marker, ← List.append_assoc pre marker]
                rw [List.drop_left]
                simp
              rw [hdrop2]
              rw [List.take_append_of_le_length (by simp; omega)]
              congr 1
              omega
            rw [hafter2]
            rw [strFind_suffix_none _ ds hdig (List.take_prefix _ _)]
          · have hnf : strFind (pending ++ b) marker = none := by
              apply strFind_eq_none
              intro i
              rcases hP : marker.isPrefixOf ((pending ++ b).drop i) with _ | _
              · rfl
              · exfalso
                obtain ⟨heq, hle⟩ := huniq2 i hP
                omega
            rw [hnf]
        by_cases hflush : (pending ++ b).length > 256
        · have hsafe : (if (pending ++ b).length > 256
              then (pending ++ b).length - 256 else 0) = (pending ++ b).length - 256 := by
            rw [if_pos hflush]
          have hsafepos : (pending ++ b).length - 256 > 0 := by omega
          have hinv1 : ((flushed ++ (pending ++ b).take ((pending ++ b).length - 256))
              ++ (pending ++ b).drop ((pending ++ b).length - 256))
              ++ (sched2.map stepBytes).flatten = total := by
            rw [List.append_assoc flushed, List.take_append_drop]
            exact hr2
          have hinv2 : ((pending ++ b).drop ((pending ++ b).length - 256)).length
              = min ((flushed ++ (pending ++ b).take ((pending ++ b).length - 256))
                ++ (pending ++ b).drop ((pending ++ b).length - 256)).length 256 := by
            simp only [List.length_append, List.length_drop, List.length_take]
            simp only [List.length_append] at hflush
            omega
          have hinv3 : ((flushed ++ (pending ++ b).take ((pending ++ b).length - 256))
              ++ (pending ++ b).drop ((pending ++ b).length - 256)).length
              < pre.length + (marker.length + ds.length + 2) := by
            simp only [List.length_append, List.length_drop, List.length_take]
            simp only [List.length_append] at hn2v hflush
            omega
          by_cases hclean : (strip_command_echo
              ((pending ++ b).take ((pending ++ b).length - 256)) cmd).isEmpty
          · obtain ⟨evs, q, dur, hrec⟩ := ih hsched2
              (flushed ++ (pending ++ b).take ((pending ++ b).length - 256))
              ((pending ++ b).drop ((pending ++ b).length - 256)) seq hinv1 hinv2 hinv3
            refine ⟨evs, q, dur, ?_⟩
            simp only [sessionExecLoop]
            rw [if_neg hb, hnone]
            simp only [hsafe]
            rw [if_pos hsafepos, if_pos hclean]
            exact hrec
          · obtain ⟨evs, q, dur, hrec⟩ := ih hsched2
              (flushed ++ (pending ++ b).take ((pending ++ b).length - 256))
              ((pending ++ b).drop ((pending ++ b).length - 256)) (seq + 1) hinv1 hinv2 hinv3
            refine ⟨⟨seq + 1, ExecBody.stdoutData (strip_command_echo
              ((pending ++ b).take ((pending ++ b).length - 256)) cmd)⟩ :: evs, q, dur, ?_⟩
            simp only [sessionExecLoop]
            rw [if_neg hb, hnone]
            simp only [hsafe]
            rw [if_pos hsafepos, if_neg hclean]
            rw [hrec]
            rfl
        · have hsafe : (if (pending ++ b).length > 256
              then (pending ++ b).length - 256 else 0) = 0 := by
            rw [if_neg hflush]
          have hinv2 : (pending ++ b).length
              = min (flushed ++ (pending ++ b)).length 256 := by
            simp only [List.length_append] at hmin hflush ⊢
            omega
          have hinv3 : (flushed ++ (pending ++ b)).length
              < pre.length + (marker.length + ds.length + 2) := by
            rw [← hn2eq]
            omega
          obtain ⟨evs, q, dur, hrec⟩ := ih hsched2 flushed (pending ++ b) seq hr2 hinv2 hinv3
          refine ⟨evs, q, dur, ?_⟩
          simp only [sessionExecLoop]
          rw [if_neg hb, hnone]
          simp only [hsafe]
          rw [if_neg (by omega)]
          exact hrec

/-- A successful `isPrefixOf` bounds the needle length. -/
theorem isPrefixOf_length_le (a l : List Nat) (h : a.isPrefixOf l = true) :
    a.length ≤ l.length := by
  rw [List.isPrefixOf_iff_prefix] at h
  exact h.length_le

/-- C4 (amended to ASCII byte streams): when the accumulated PTY bytes are
ASCII and contain the per-exec marker (at its unique position) followed by
decimal digits and the closing `"__"`, `extract_sentinel` reports exactly
the bytes preceding the marker as output and the parsed digits as exit
code; and for any chunking of such a stream into reads, the loop — which
streams only the buffer prefix up to its trailing 256 bytes — detects the
sentinel intact and ends with the exit event carrying that code. -/
theorem session_sentinel_ascii
    (pre marker ds rest cmd : List Nat) (sched : List ReadStep)
    (hascii : ∀ x ∈ pre ++ (marker ++ (ds ++ ([95, 95] ++ rest))), x ≤ 0x7F)
    (hmne : marker ≠ [])
    (huniq : ∀ i, marker.isPrefixOf
      ((pre ++ (marker ++ (ds ++ ([95, 95] ++ rest)))).drop i) = true → i = pre.length)
    (hdne : ds ≠ []) (hdig : ∀ c ∈ ds, 48 ≤ c ∧ c ≤ 57)
    (hval : natDigitsVal ds ≤ 2 ^ 31 - 1)
    (hwlen : marker.length + ds.length + 2 ≤ 256)
    (hsched : ∀ st ∈ sched, ∃ b el, st = ReadStep.dataRead b el)
    (hjoin : (sched.map stepBytes).flatten
      = pre ++ (marker ++ (ds ++ ([95, 95] ++ rest)))) :
    extract_sentinel (pre ++ (marker ++ (ds ++ ([95, 95] ++ rest)))) marker
      = some (pre, ((natDigitsVal ds : Nat) : Int)) ∧
    ∃ evs q dur, run_session_exec marker cmd sched
      = evs ++ [⟨q, ExecBody.exit ⟨((natDigitsVal ds : Nat) : Int), 0, 0, dur⟩⟩] := by
  constructor
  · apply extract_sentinel_exact pre marker ds rest hascii hmne ?hfirst hdne hdig hval
    case hfirst =>
      intro i hi
      rcases hP : marker.isPrefixOf
          ((pre ++ (marker ++ (ds ++ ([95, 95] ++ rest)))).drop i) with _ | _
      · exact hP
      · exfalso
        have := huniq i hP
        omega
  · rw [run_session_exec]
    exact sessionLoop_detects marker cmd ds pre rest _ hmne hdne hdig hval hwlen rfl
      hascii huniq sched hsched [] [] 0 (by simpa using hjoin) (by simp) (by simp)

/-- C4 witness: the amended theorem applied to the concrete command output
`"hi\n"`, marker `__SC_SENTINEL_1_`, exit code 42, with the sentinel split
mid-marker across two read chunks. -/
theorem session_sentinel_ascii_witness :
    extract_sentinel ([104, 105, 10] ++ (sentinelMarker [49]
        ++ ([52, 50] ++ ([95, 95] ++ [10])))) (sentinelMarker [49])
      = some ([104, 105, 10], ((natDigitsVal [52, 50] : Nat) : Int)) ∧
    ∃ evs q dur, run_session_exec (sentinelMarker [49]) [108, 115]
        [ReadStep.dataRead ([104, 105, 10] ++ (sentinelMarker [49]).take 8) 1,
         ReadStep.dataRead ((sentinelMarker [49]).drop 8
           ++ ([52, 50] ++ ([95, 95] ++ [10]))) 2]
      = evs ++ [⟨q, ExecBody.exit ⟨((natDigitsVal [52, 50] : Nat) : Int), 0, 0, dur⟩⟩] := by
  apply session_sentinel_ascii [104, 105, 10] (sentinelMarker [49]) [52, 50] [10] [108, 115]
  · decide
  · decide
  · intro i h
    have hle := isPrefixOf_length_le _ _ h
    rw [List.length_drop] at hle
    have hi : i < 9 := by
      simp [sentinelMarker, sentinelStart] at hle
      omega
    have hdec : ∀ j, j < 9 → (sentinelMarker [49]).isPrefixOf
        (([104, 105, 10] ++ (sentinelMarker [49]
          ++ ([52, 50] ++ ([95, 95] ++ [10])))).drop j) = true → j = 3 := by
      decide
    exact hdec i hi h
  · decide
  · decide
  · decide
  · decide
  · intro st hst
    rcases List.mem_cons.mp hst with rfl | hst2
    · exact ⟨_, _, rfl⟩
    · rcases List.mem_cons.mp hst2 with rfl | hst3
      · exact ⟨_, _, rfl⟩
      · simp at hst3
  · decide

/-! ### C2: sandbox event ordering, and C1: failure-path rollback -/


lemma nonStopFor_append (j : String) (a b : List (String × EvType)) :
    nonStopFor j (a ++ b) = nonStopFor j a ++ nonStopFor j b := by
  simp [nonStopFor, List.filter_append]

lemma nonStopFor_map_self (i : String) (tags : List EvType) :
    nonStopFor i (tags.map (fun t => (i, t))) = tags.filter (fun t => t != EvType.stopped) := by
  induction tags with
  | nil => rfl
  | cons t ts ih =>
      rcases ht : (t != EvType.stopped) with _ | _ <;>
        simp only [List.map_cons, nonStopFor, List.filter_cons] at ih ⊢ <;>
        simp [ht] at ih ⊢ <;> try exact ih

lemma nonStopFor_map_other (j i : String) (hj : j ≠ i) (tags : List EvType) :
    nonStopFor j (tags.map (fun t => (i, t))) = [] := by
  induction tags with
  | nil => rfl
  | cons t ts ih =>
      simp only [List.map_cons, nonStopFor, List.filter_cons] at ih ⊢
      simp [Ne.symm hj] at ih ⊢
      try exact ih

lemma nonStop_delta (newEv base : List (String × EvType)) (i : String) (tags : List EvType)
    (hev : newEv = base ++ tags.map (fun t => (i, t)))
    (hns : tags.filter (fun t => t != EvType.stopped) = tags) :
    ∀ j, nonStopFor j newEv = nonStopFor j base ++ (if j = i then tags else []) := by
  intro j
  subst hev
  rw [nonStopFor_append]
  congr 1
  rcases eq_or_ne j i with hj | hj
  · subst hj
    rw [if_pos rfl, nonStopFor_map_self, hns]
  · rw [if_neg hj, nonStopFor_map_other j i hj]


lemma create_cold_delta (st : NodeState) (id : String) (profile : Profile)
    (env : List (String × String)) (o : ColdOracle) :
    ∃ d, GoodTrace d ∧ ∀ j,
      nonStopFor j (create_sandbox st id profile env o).1.events
        = nonStopFor j st.events ++ (if j = id then d else []) := by
  rcases hs : slotAllocate st.slots with _ | ⟨slot, slots2⟩
  · exact ⟨[], Or.inl rfl, nonStop_delta _ _ _ _ (by simp [create_sandbox, hs]) rfl⟩
  · rcases hdup : (alookup st.sandboxes id).isSome with _ | _
    · rcases o with ⟨netOk, diskOk, fcOk, healthOk, bootMs⟩
      rcases netOk with _ | _
      · exact ⟨[.created, .failed], Or.inr (Or.inr (Or.inr (Or.inl rfl))),
          nonStop_delta _ _ _ _
            (by simp [create_sandbox, hs, insertProvisioning, hdup, reportEvent, setStatus,
                      stRelease, netUp, netDown, diskUp, diskDown, procUp, vmDestroy,
                      finalizeRunning]) rfl⟩
      · rcases diskOk with _ | _
        · exact ⟨[.created, .failed], Or.inr (Or.inr (Or.inr (Or.inl rfl))),
            nonStop_delta _ _ _ _
              (by simp [create_sandbox, hs, insertProvisioning, hdup, reportEvent, setStatus,
                        stRelease, netUp, netDown, diskUp, diskDown, procUp, vmDestroy,
                        finalizeRunning]) rfl⟩
        · rcases fcOk with _ | _
          · exact ⟨[.created, .failed], Or.inr (Or.inr (Or.inr (Or.inl rfl))),
              nonStop_delta _ _ _ _
                (by simp [create_sandbox, hs, insertProvisioning, hdup, reportEvent, setStatus,
                          stRelease, netUp, netDown, diskUp, diskDown, procUp, vmDestroy,
                          finalizeRunning]) rfl⟩
          · rcases healthOk with _ | _
            · exact ⟨[.created, .failed], Or.inr (Or.inr (Or.inr (Or.inl rfl))),
                nonStop_delta _ _ _ _
                  (by simp [create_sandbox, hs, insertProvisioning, hdup, reportEvent, setStatus,
                            stRelease, netUp, netDown, diskUp, diskDown, procUp, vmDestroy,
                            finalizeRunning]) rfl⟩
            · exact ⟨[.created, .ready], Or.inr (Or.inr (Or.inl rfl)),
                nonStop_delta _ _ _ _
                  (by simp [create_sandbox, hs, insertProvisioning, hdup, reportEvent, setStatus,
                            stRelease, netUp, netDown, diskUp, diskDown, procUp, vmDestroy,
                            finalizeRunning]) rfl⟩
    · exact ⟨[], Or.inl rfl, nonStop_delta _ _ _ _
        (by simp [create_sandbox, hs, insertProvisioning, hdup]) rfl⟩


lemma create_warm_delta (st : NodeState) (id : String)
    (env : List (String × String)) (o : WarmOracle) :
    ∃ d, GoodTrace d ∧ ∀ j,
      nonStopFor j (create_sandbox_from_snapshot st id env o).1.events
        = nonStopFor j st.events ++ (if j = id then d else []) := by
  rcases o with ⟨snapExists, netOk, diskOk, copyMemOk, copySnapOk, spawnOk,
    readyOk, restoreOk, resumeOk, healthOk, bootMs⟩
  rcases snapExists with _ | _
  · exact ⟨[], Or.inl rfl, nonStop_delta _ _ _ _
      (by simp [create_sandbox_from_snapshot]) rfl⟩
  · rcases hs : slotAllocate st.slots with _ | ⟨slot, slots2⟩
    · exact ⟨[], Or.inl rfl, nonStop_delta _ _ _ _
        (by simp [create_sandbox_from_snapshot, hs]) rfl⟩
    · rcases hdup : (alookup st.sandboxes id).isSome with _ | _
      · rcases netOk with _ | _
        · exact ⟨[.created, .failed], Or.inr (Or.inr (Or.inr (Or.inl rfl))),
            nonStop_delta _ _ _ _
              (by simp [create_sandbox_from_snapshot, hs, insertProvisioning, hdup, reportEvent,
                        setStatus, stRelease, netUp, netDown, diskUp, diskDown, procUp, vmDestroy,
                        finalizeRunning]) rfl⟩
        · rcases diskOk with _ | _
          · exact ⟨[.created, .failed], Or.inr (Or.inr (Or.inr (Or.inl rfl))),
              nonStop_delta _ _ _ _
                (by simp [create_sandbox_from_snapshot, hs, insertProvisioning, hdup, reportEvent,
                          setStatus, stRelease, netUp, netDown, diskUp, diskDown, procUp, vmDestroy,
                          finalizeRunning]) rfl⟩
          · rcases copyMemOk with _ | _
            · exact ⟨[.created, .failed], Or.inr (Or.inr (Or.inr (Or.inl rfl))),
                nonStop_delta _ _ _ _
                  (by simp [create_sandbox_from_snapshot, hs, insertProvisioning, hdup, reportEvent,
                            setStatus, stRelease, netUp, netDown, diskUp, diskDown, procUp, vmDestroy,
                            finalizeRunning]) rfl⟩
            · rcases copySnapOk with _ | _
              · exact ⟨[.created, .failed], Or.inr (Or.inr (Or.inr (Or.inl rfl))),
                  nonStop_delta _ _ _ _
                    (by simp [create_sandbox_from_snapshot, hs, insertProvisioning, hdup, reportEvent,
                              setStatus, stRelease, netUp, netDown, diskUp, diskDown, procUp, vmDestroy,
                              finalizeRunning]) rfl⟩
              · rcases spawnOk with _ | _
                · exact ⟨[.created], Or.inr (Or.inl rfl),
                    nonStop_delta _ _ _ _
                      (by simp [create_sandbox_from_snapshot, hs, insertProvisioning, hdup,
                                reportEvent, setStatus, stRelease, netUp, netDown, diskUp, diskDown,
                                procUp, vmDestroy, finalizeRunning]) rfl⟩
                · rcases readyOk with _ | _
                  · exact ⟨[.created, .failed], Or.inr (Or.inr (Or.inr (Or.inl rfl))),
                      nonStop_delta _ _ _ _
                        (by simp [create_sandbox_from_snapshot, hs, insertProvisioning, hdup,
                                  reportEvent, setStatus, stRelease, netUp, netDown, diskUp, diskDown,
                                  procUp, vmDestroy, finalizeRunning]) rfl⟩
                  · rcases restoreOk with _ | _
                    · exact ⟨[.created, .failed], Or.inr (Or.inr (Or.inr (Or.inl rfl))),
                        nonStop_delta _ _ _ _
                          (by simp [create_sandbox_from_snapshot, hs, insertProvisioning, hdup,
                                    reportEvent, setStatus, stRelease, netUp, netDown, diskUp,
                                    diskDown, procUp, vmDestroy, finalizeRunning]) rfl⟩
                    · rcases resumeOk with _ | _
                      · exact ⟨[.created, .failed], Or.inr (Or.inr (Or.inr (Or.inl rfl))),
                          nonStop_delta _ _ _ _
                            (by simp [create_sandbox_from_snapshot, hs, insertProvisioning, hdup,
                                      reportEvent, setStatus, stRelease, netUp, netDown, diskUp,
                                      diskDown, procUp, vmDestroy, finalizeRunning]) rfl⟩
                      · rcases healthOk with _ | _
                        · exact ⟨[.created, .failed], Or.inr (Or.inr (Or.inr (Or.inl rfl))),
                            nonStop_delta _ _ _ _
                              (by simp [create_sandbox_from_snapshot, hs, insertProvisioning, hdup,
                                        reportEvent, setStatus, stRelease, netUp, netDown, diskUp,
                                        diskDown, procUp, vmDestroy, finalizeRunning]) rfl⟩
                        · exact ⟨[.created, .ready], Or.inr (Or.inr (Or.inl rfl)),
                            nonStop_delta _ _ _ _
                              (by simp [create_sandbox_from_snapshot, hs, insertProvisioning, hdup,
                                        reportEvent, setStatus, stRelease, netUp, netDown, diskUp,
                                        diskDown, procUp, vmDestroy, finalizeRunning]) rfl⟩
      · exact ⟨[], Or.inl rfl, nonStop_delta _ _ _ _
          (by simp [create_sandbox_from_snapshot, hs, insertProvisioning, hdup]) rfl⟩


lemma fork_delta (st : NodeState) (src dst : String) (o : ForkOracle) :
    ∃ d, GoodTrace d ∧ ∀ j,
      nonStopFor j (fork_sandbox st src dst o).1.events
        = nonStopFor j st.events ++ (if j = dst then d else []) := by
  rcases hsrc : alookup st.sandboxes src with _ | info
  · exact ⟨[], Or.inl rfl, nonStop_delta _ _ _ _ (by simp [fork_sandbox, hsrc]) rfl⟩
  · by_cases hrun : info.status = SandboxStatus.running
    · by_cases hvm : src ∈ st.vms
      swap
      · exact ⟨[], Or.inl rfl, nonStop_delta _ _ _ _
          (by simp [fork_sandbox, hsrc, hrun, hvm]) rfl⟩
      · rcases hs : slotAllocate st.slots with _ | ⟨slot, slots2⟩
        · exact ⟨[], Or.inl rfl, nonStop_delta _ _ _ _
            (by simp [fork_sandbox, hsrc, hrun, hvm, hs]) rfl⟩
        · rcases hdup : (alookup st.sandboxes dst).isSome with _ | _
          · rcases o with ⟨netOk, mkdirOk, pauseOk, snapshotOk, diskOk, spawnOk,
              readyOk, restoreOk, forkResumeOk, healthOk, bootMs⟩
            rcases netOk with _ | _
            · exact ⟨[.created, .failed], Or.inr (Or.inr (Or.inr (Or.inl rfl))),
                nonStop_delta _ _ _ _
                  (by simp [fork_sandbox, hsrc, hrun, hvm, hs, insertProvisioning, hdup,
                            cleanupForkFailure, reportEvent, setStatus, stRelease, netUp, netDown,
                            diskUp, diskDown, procUp, vmDestroy, finalizeRunning]) rfl⟩
            · rcases mkdirOk with _ | _
              · exact ⟨[.created, .failed], Or.inr (Or.inr (Or.inr (Or.inl rfl))),
                  nonStop_delta _ _ _ _
                    (by simp [fork_sandbox, hsrc, hrun, hvm, hs, insertProvisioning, hdup,
                              cleanupForkFailure, reportEvent, setStatus, stRelease, netUp, netDown,
                              diskUp, diskDown, procUp, vmDestroy, finalizeRunning]) rfl⟩
              · rcases pauseOk with _ | _
                · exact ⟨[.created, .failed], Or.inr (Or.inr (Or.inr (Or.inl rfl))),
                    nonStop_delta _ _ _ _
                      (by simp [fork_sandbox, hsrc, hrun, hvm, hs, insertProvisioning, hdup,
                                cleanupForkFailure, reportEvent, setStatus, stRelease, netUp, netDown,
                                diskUp, diskDown, procUp, vmDestroy, finalizeRunning]) rfl⟩
                · rcases snapshotOk with _ | _
                  · exact ⟨[.created, .failed], Or.inr (Or.inr (Or.inr (Or.inl rfl))),
                      nonStop_delta _ _ _ _
                        (by simp [fork_sandbox, hsrc, hrun, hvm, hs, insertProvisioning, hdup,
                                  cleanupForkFailure, reportEvent, setStatus, stRelease, netUp,
                                  netDown, diskUp, diskDown, procUp, vmDestroy, finalizeRunning]) rfl⟩
                  · rcases diskOk with _ | _
                    · exact ⟨[.created, .failed], Or.inr (Or.inr (Or.inr (Or.inl rfl))),
                        nonStop_delta _ _ _ _
                          (by simp [fork_sandbox, hsrc, hrun, hvm, hs, insertProvisioning, hdup,
                                    cleanupForkFailure, reportEvent, setStatus, stRelease, netUp,
                                    netDown, diskUp, diskDown, procUp, vmDestroy, finalizeRunning]) rfl⟩
                    · rcases spawnOk with _ | _
                      · exact ⟨[.created, .failed], Or.inr (Or.inr (Or.inr (Or.inl rfl))),
                          nonStop_delta _ _ _ _
                            (by simp [fork_sandbox, hsrc, hrun, hvm, hs, insertProvisioning, hdup,
                                      cleanupForkFailure, reportEvent, setStatus, stRelease, netUp,
                                      netDown, diskUp, diskDown, procUp, vmDestroy, finalizeRunning]) rfl⟩
                      · rcases readyOk with _ | _
                        · exact ⟨[.created, .failed], Or.inr (Or.inr (Or.inr (Or.inl rfl))),
                            nonStop_delta _ _ _ _
                              (by simp [fork_sandbox, hsrc, hrun, hvm, hs, insertProvisioning, hdup,
                                        cleanupForkFailure, reportEvent, setStatus, stRelease, netUp,
                                        netDown, diskUp, diskDown, procUp, vmDestroy, finalizeRunning]) rfl⟩
                        · rcases restoreOk with _ | _
                          · exact ⟨[.created, .failed], Or.inr (Or.inr (Or.inr (Or.inl rfl))),
                              nonStop_delta _ _ _ _
                                (by simp [fork_sandbox, hsrc, hrun, hvm, hs, insertProvisioning, hdup,
                                          cleanupForkFailure, reportEvent, setStatus, stRelease,
                                          netUp, netDown, diskUp, diskDown, procUp, vmDestroy,
                                          finalizeRunning]) rfl⟩
                          · rcases forkResumeOk with _ | _
                            · exact ⟨[.created, .failed], Or.inr (Or.inr (Or.inr (Or.inl rfl))),
                                nonStop_delta _ _ _ _
                                  (by simp [fork_sandbox, hsrc, hrun, hvm, hs, insertProvisioning,
                                            hdup, cleanupForkFailure, reportEvent, setStatus,
                                            stRelease, netUp, netDown, diskUp, diskDown, procUp,
                                            vmDestroy, finalizeRunning]) rfl⟩
                            · rcases healthOk with _ | _
                              · exact ⟨[.created, .failed], Or.inr (Or.inr (Or.inr (Or.inl rfl))),
                                  nonStop_delta _ _ _ _
                                    (by simp [fork_sandbox, hsrc, hrun, hvm, hs, insertProvisioning,
                                              hdup, cleanupForkFailure, reportEvent, setStatus,
                                              stRelease, netUp, netDown, diskUp, diskDown, procUp,
                                              vmDestroy, finalizeRunning]) rfl⟩
                              · exact ⟨[.created, .forked], Or.inr (Or.inr (Or.inr (Or.inr rfl))),
                                  nonStop_delta _ _ _ _
                                    (by simp [fork_sandbox, hsrc, hrun, hvm, hs, insertProvisioning,
                                              hdup, cleanupForkFailure, reportEvent, setStatus,
                                              stRelease, netUp, netDown, diskUp, diskDown, procUp,
                                              vmDestroy, finalizeRunning]) rfl⟩
          · exact ⟨[], Or.inl rfl, nonStop_delta _ _ _ _
              (by simp [fork_sandbox, hsrc, hrun, hvm, hs, insertProvisioning, hdup, stRelease]) rfl⟩
    · exact ⟨[], Or.inl rfl, nonStop_delta _ _ _ _
        (by simp [fork_sandbox, hsrc, hrun]) rfl⟩

lemma destroy_delta (st : NodeState) (i : String) :
    ∀ j, nonStopFor j (destroy_sandbox st i).1.events = nonStopFor j st.events := by
  have hev : (destroy_sandbox st i).1.events = st.events ++ [(i, EvType.stopped)] := by
    rcases hns : (alookup (setStatus st i SandboxStatus.stopping).sandboxes i).bind
        (fun x => x.network_slot) with _ | slot <;>
      rcases hvm : (setStatus st i SandboxStatus.stopping).vms.contains i with _ | _ <;>
        simp only [destroy_sandbox, hns, hvm] <;>
        simp [setStatus, reportEvent, vmDestroy, stRelease, netDown, aremove]
  intro j
  rw [hev, nonStopFor_append]
  simp [nonStopFor]


lemma stepOp_delta (st : NodeState) (op : NodeOp) :
    ∃ d, GoodTrace d ∧ ∀ j, nonStopFor j (stepOp st op).events
      = nonStopFor j st.events ++ (if createTarget op = some j then d else []) := by
  cases op with
  | createCold i p e o =>
      obtain ⟨d, hd, hdel⟩ := create_cold_delta st i p e o
      refine ⟨d, hd, fun j => ?_⟩
      rw [show stepOp st (NodeOp.createCold i p e o) = (create_sandbox st i p e o).1 from rfl,
        hdel j]
      congr 1
      rcases eq_or_ne j i with hj | hj
      · subst hj; rw [if_pos rfl]; simp [createTarget]
      · rw [if_neg hj, if_neg (by simpa [createTarget] using Ne.symm hj)]
  | createWarm i e o =>
      obtain ⟨d, hd, hdel⟩ := create_warm_delta st i e o
      refine ⟨d, hd, fun j => ?_⟩
      rw [show stepOp st (NodeOp.createWarm i e o) = (create_sandbox_from_snapshot st i e o).1
        from rfl, hdel j]
      congr 1
      rcases eq_or_ne j i with hj | hj
      · subst hj; rw [if_pos rfl]; simp [createTarget]
      · rw [if_neg hj, if_neg (by simpa [createTarget] using Ne.symm hj)]
  | fork s dd o =>
      obtain ⟨d, hd, hdel⟩ := fork_delta st s dd o
      refine ⟨d, hd, fun j => ?_⟩
      rw [show stepOp st (NodeOp.fork s dd o) = (fork_sandbox st s dd o).1 from rfl, hdel j]
      congr 1
      rcases eq_or_ne j dd with hj | hj
      · subst hj; rw [if_pos rfl]; simp [createTarget]
      · rw [if_neg hj, if_neg (by simpa [createTarget] using Ne.symm hj)]
  | destroy i =>
      refine ⟨[], Or.inl rfl, fun j => ?_⟩
      rw [show stepOp st (NodeOp.destroy i) = (destroy_sandbox st i).1 from rfl,
        destroy_delta st i j]
      simp [createTarget]

lemma runOps_good (id : String) :
    ∀ (ops : List NodeOp) (st : NodeState),
      GoodTrace (nonStopFor id st.events) →
      (ops.filter (fun op => createTarget op == some id)).length
        + (if nonStopFor id st.events = [] then 0 else 1) ≤ 1 →
      GoodTrace (nonStopFor id (runOps st ops).events) := by
  intro ops
  induction ops with
  | nil => intro st hg _; exact hg
  | cons op rest ih =>
      intro st hg hcnt
      obtain ⟨d, hd, hdel⟩ := stepOp_delta st op
      show GoodTrace (nonStopFor id (runOps (stepOp st op) rest).events)
      by_cases hop : createTarget op = some id
      · simp only [List.filter_cons, hop, beq_self_eq_true, if_true, List.length_cons] at hcnt
        have hlen0 : (List.filter (fun op => createTarget op == some id) rest).length = 0 := by
          rcases hite : (if nonStopFor id st.events = [] then 0 else 1) with _ | _ <;>
            rw [hite] at hcnt <;> omega
        have htr : nonStopFor id st.events = [] := by
          by_contra hne
          rw [if_neg hne] at hcnt
          omega
        apply ih
        · rw [hdel id, htr, if_pos hop]
          exact hd
        · rw [hlen0]
          split <;> omega
      · have hbe : (createTarget op == some id) = false := by
          rw [beq_eq_false_iff_ne]
          exact hop
        simp only [List.filter_cons, hbe, Bool.false_eq_true, if_false] at hcnt
        apply ih
        · rw [hdel id, if_neg hop, List.append_nil]
          exact hg
        · rw [hdel id, if_neg hop, List.append_nil]
          exact hcnt

lemma nonStop_eq_filter_events (id : String) (evs : List (String × EvType)) :
    nonStopFor id evs = (eventsFor id evs).filter (fun t => t != EvType.stopped) := by
  induction evs with
  | nil => rfl
  | cons e t ih =>
      rcases hh : (e.1 == id) with _ | _ <;>
        rcases hh2 : (e.2 != EvType.stopped) with _ | _ <;>
          simp [nonStopFor, eventsFor, List.filter_cons, hh, hh2] at ih ⊢ <;>
            try simpa [nonStopFor, eventsFor] using ih


/-- C2 counterexample: destroying an id that was never created still emits a
Stopped event for it: from the empty initial state, `destroy_sandbox` on the
unknown id `"x"` emits exactly `[stopped]` for `"x"`, although no Created
event was ever emitted for `"x"`. -/
theorem destroy_unknown_emits_stopped :
    eventsFor "x" (runOps NodeState.init [NodeOp.destroy "x"]).events = [EvType.stopped] ∧
    eventsFor "x" NodeState.init.events = [] := by
  constructor <;> rfl

/-- C2 (amended): for every sandbox id and every operation sequence in which at
most one create-type operation (cold create, warm create, or fork child)
targets that id, the per-id trace of non-Stopped event types is a prefix of
Created, (Ready | Failed | Forked); the full per-id trace is that prefix with
Stopped events interleaved, since `destroy_sandbox` emits Stopped
unconditionally, even for unknown ids. -/
theorem sandbox_event_order (id : String) (ops : List NodeOp)
    (hone : (ops.filter (fun op => createTarget op == some id)).length ≤ 1) :
    GoodTrace (nonStopFor id (runOps NodeState.init ops).events) ∧
    nonStopFor id (runOps NodeState.init ops).events
      = (eventsFor id (runOps NodeState.init ops).events).filter
          (fun t => t != EvType.stopped) := by
  refine ⟨?_, nonStop_eq_filter_events _ _⟩
  apply runOps_good id ops NodeState.init (Or.inl rfl)
  simpa [NodeState.init, nonStopFor] using hone

/-- C2 witness: a run with one successful cold create of `"a"`, a destroy, a
failing cold create of `"b"` and a destroy of the unknown `"c"` satisfies the
one-create hypothesis for `"a"` and yields an admissible non-Stop trace. -/
theorem sandbox_event_order_witness :
    (([NodeOp.createCold "a" Profile.small [] ⟨true, true, true, true, 5⟩,
       NodeOp.destroy "a",
       NodeOp.createCold "b" Profile.small [] ⟨false, true, true, true, 0⟩,
       NodeOp.destroy "c"].filter
        (fun op => createTarget op == some "a")).length ≤ 1) ∧
    GoodTrace (nonStopFor "a" (runOps NodeState.init
      [NodeOp.createCold "a" Profile.small [] ⟨true, true, true, true, 5⟩,
       NodeOp.destroy "a",
       NodeOp.createCold "b" Profile.small [] ⟨false, true, true, true, 0⟩,
       NodeOp.destroy "c"]).events) :=
  ⟨by decide,
   (sandbox_event_order "a"
      [NodeOp.createCold "a" Profile.small [] ⟨true, true, true, true, 5⟩,
       NodeOp.destroy "a",
       NodeOp.createCold "b" Profile.small [] ⟨false, true, true, true, 0⟩,
       NodeOp.destroy "c"] (by decide)).1⟩

/-- C1: two failure exits keep their partial side effects instead of rolling
them back. The duplicate-id rejection in `create_sandbox` happens after slot
allocation and returns AlreadyExists without releasing the fresh slot: after
a successful create of `"a"` (slot 0) a second create of `"a"` fails yet
leaves slots `[1, 0]`. A hypervisor spawn failure in
`create_sandbox_from_snapshot` then returns with no rollback at all: slot 2
stays allocated, the network and cloned disk for `"b"` stay up, the map keeps
the Provisioning entry for `"b"`, and no Failed event is reported for it. -/
theorem create_failure_leaks_slot :
    ((create_sandbox ((create_sandbox NodeState.init "a" .small []
        ⟨true, true, true, true, 7⟩).1) "a" .small [] ⟨true, true, true, true, 7⟩).2
      = .error .alreadyExists) ∧
    ((create_sandbox ((create_sandbox NodeState.init "a" .small []
        ⟨true, true, true, true, 7⟩).1) "a" .small [] ⟨true, true, true, true, 7⟩).1.slots
      = [1, 0]) ∧
    ((create_sandbox_from_snapshot (create_sandbox ((create_sandbox NodeState.init "a" .small []
        ⟨true, true, true, true, 7⟩).1) "a" .small [] ⟨true, true, true, true, 7⟩).1 "b" []
        ⟨true, true, true, true, true, false, true, true, true, true, 0⟩).2
      = .error .createFailed) ∧
    ((create_sandbox_from_snapshot (create_sandbox ((create_sandbox NodeState.init "a" .small []
        ⟨true, true, true, true, 7⟩).1) "a" .small [] ⟨true, true, true, true, 7⟩).1 "b" []
        ⟨true, true, true, true, true, false, true, true, true, true, 0⟩).1.slots
      = [2, 1, 0]) ∧
    ((create_sandbox_from_snapshot (create_sandbox ((create_sandbox NodeState.init "a" .small []
        ⟨true, true, true, true, 7⟩).1) "a" .small [] ⟨true, true, true, true, 7⟩).1 "b" []
        ⟨true, true, true, true, true, false, true, true, true, true, 0⟩).1.nets
      = ["b", "a"]) ∧
    ((create_sandbox_from_snapshot (create_sandbox ((create_sandbox NodeState.init "a" .small []
        ⟨true, true, true, true, 7⟩).1) "a" .small [] ⟨true, true, true, true, 7⟩).1 "b" []
        ⟨true, true, true, true, true, false, true, true, true, true, 0⟩).1.disks
      = ["b", "a"]) ∧
    (alookup (create_sandbox_from_snapshot (create_sandbox ((create_sandbox NodeState.init "a"
        .small [] ⟨true, true, true, true, 7⟩).1) "a" .small [] ⟨true, true, true, true, 7⟩).1 "b"
        [] ⟨true, true, true, true, true, false, true, true, true, true, 0⟩).1.sandboxes "b"
      = some ⟨"b", .provisioning, .small, [], none, some 2⟩) ∧
    (eventsFor "b" (create_sandbox_from_snapshot (create_sandbox ((create_sandbox NodeState.init
        "a" .small [] ⟨true, true, true, true, 7⟩).1) "a" .small [] ⟨true, true, true, true, 7⟩).1
        "b" [] ⟨true, true, true, true, true, false, true, true, true, true, 0⟩).1.events
      = [EvType.created]) := by
  refine ⟨rfl, rfl, rfl, rfl, rfl, rfl, rfl, rfl⟩

end Sandchest
